import Mathlib

set_option maxHeartbeats 1000000

/-!
Shallow embedding of the ufotofu_queues crate (src/lib.rs, src/fixed.rs,
src/static_.rs): FIFO ring-buffer queues supporting single-item and bulk
transfer.

Modelling conventions:
- A `MaybeUninit<T>` slot is `Option T`: `some x` is initialized memory
  holding `x`, `none` is uninitialized memory.
- Rust's `%` on `usize` panics when the divisor is zero; operations that can
  reach such a remainder (or other undefined behaviour, such as
  `assume_init` on uninitialized memory) return `Option`, with `none`
  standing for the panic / UB outcome. Slice indexing that is in bounds in
  every state the theorems quantify over is modelled with the clamping
  `List.take` / `List.drop` / `List.getD`.
- `Box<[MaybeUninit<T>]>` and `[MaybeUninit<T>; N]` are `List (Option T)`;
  the heap variant's capacity is the list length, the static variant's is
  the type-level parameter `N`.
-/

/-- Rust remainder on usize: `a % b`, panicking (modelled as `none`) when `b = 0`. -/
def rustMod (a b : Nat) : Option Nat :=
  if b = 0 then none else some (a % b)

/-- One ring-buffer slot of `MaybeUninit<T>` memory. -/
abbrev Slot (T : Type) := Option T

/-- Heap-allocated queue `Fixed<T>` of fixed.rs: a buffer of slots plus read
index and amount of valid data. -/
structure Fixed (T : Type) where
  data : List (Slot T)
  read : Nat
  amount : Nat
deriving DecidableEq, Repr

namespace Fixed

variable {T : Type}

/-- Construction `Fixed::new(capacity)`: `capacity` uninitialized slots, `read = 0`,
`amount = 0`. -/
def new (T : Type) (capacity : Nat) : Fixed T :=
  ⟨List.replicate capacity none, 0, 0⟩

/-- Accessor `Fixed::capacity`: the length of the allocated buffer. -/
def capacity (q : Fixed T) : Nat := q.data.length

/-- Method `Fixed::is_data_contiguous`: `self.read + self.amount < self.capacity()`. -/
def is_data_contiguous (q : Fixed T) : Bool := q.read + q.amount < q.capacity

/-- Method `Fixed::write_to`: `(self.read + self.amount) % self.capacity()`. -/
def write_to (q : Fixed T) : Option Nat := rustMod (q.read + q.amount) q.capacity

/-- Method `Fixed::readable_slice`: `data[read..write_to]` when contiguous, else
`data[read..]`. -/
def readable_slice (q : Fixed T) : Option (List (Slot T)) :=
  if q.is_data_contiguous then
    q.write_to.map (fun w => (q.data.take w).drop q.read)
  else
    some (q.data.drop q.read)

/-- Method `Fixed::writeable_slice`: `data[write_to..capacity]` when contiguous,
else `data[write_to..read]`. -/
def writeable_slice (q : Fixed T) : Option (List (Slot T)) :=
  q.write_to.map (fun w =>
    if q.is_data_contiguous then q.data.drop w
    else (q.data.take q.read).drop w)

/-- Trait method `Queue::len` for `Fixed`: `self.amount`. -/
def len (q : Fixed T) : Nat := q.amount

/-- Trait default `Queue::is_empty`: `self.len() == 0`. -/
def is_empty (q : Fixed T) : Bool := q.len = 0

/-- Trait method `Queue::enqueue` for `Fixed`: return the item if
`amount == capacity`, else write it at `write_to` and increment `amount`. -/
def enqueue (q : Fixed T) (item : T) : Option (Option T × Fixed T) :=
  if q.amount = q.capacity then some (some item, q)
  else
    q.write_to.map (fun w =>
      (none, { q with data := q.data.set w (some item), amount := q.amount + 1 }))

/-- Trait method `Queue::expose_slots` for `Fixed`: `None` when full, else the
writeable slice. -/
def expose_slots (q : Fixed T) : Option (Option (List (Slot T))) :=
  if q.amount = q.capacity then some none
  else q.writeable_slice.map some

/-- Trait method `Queue::consider_enqueued` for `Fixed`: `self.amount += amount`. -/
def consider_enqueued (q : Fixed T) (amount : Nat) : Fixed T :=
  { q with amount := q.amount + amount }

/-- Trait method `Queue::dequeue` for `Fixed`: `None` when empty, else read the
slot at `read` (UB if uninitialized, modelled as outer `none`), advance
`read = (read + 1) % capacity`, decrement `amount`. -/
def dequeue (q : Fixed T) : Option (Option T × Fixed T) :=
  if q.amount = 0 then some (none, q)
  else
    match rustMod (q.read + 1) q.capacity, q.data.getD q.read none with
    | some r, some item => some (some item, { q with read := r, amount := q.amount - 1 })
    | _, _ => none

/-- Helper for `slice_assume_init_ref`: all slots must be initialized, otherwise
UB (`none`). -/
def initAll : List (Slot T) → Option (List T)
  | [] => some []
  | none :: _ => none
  | some x :: rest => (initAll rest).map (fun l => x :: l)

/-- Trait method `Queue::expose_items` for `Fixed`: `None` when empty, else the
readable slice with every slot assumed initialized. -/
def expose_items (q : Fixed T) : Option (Option (List T)) :=
  if q.amount = 0 then some none
  else
    match q.readable_slice with
    | none => none
    | some s => (initAll s).map some

/-- Trait method `Queue::consider_dequeued` for `Fixed`:
`read = (read + amount) % capacity`, `amount -= amount`. -/
def consider_dequeued (q : Fixed T) (amount : Nat) : Option (Fixed T) :=
  (rustMod (q.read + amount) q.capacity).map (fun r =>
    { q with read := r, amount := q.amount - amount })

/-- Writing consecutive items into the buffer starting at a given index: the
effect of the caller filling the first `items.length` positions of an exposed
writeable slice (the slice is the subslice of `data` beginning at `write_to`). -/
def writeRange (data : List (Slot T)) (start : Nat) (items : List T) : List (Slot T) :=
  match items with
  | [] => data
  | x :: rest => writeRange (data.set start (some x)) (start + 1) rest

/-- Trait default `Queue::bulk_enqueue` instantiated for `Fixed`: expose slots,
copy `min(slots.len, buffer.len)` items from the buffer into the exposed slice
(which starts at index `write_to` of `data`), then `consider_enqueued` that
count. -/
def bulk_enqueue (q : Fixed T) (buffer : List T) : Option (Nat × Fixed T) :=
  match q.expose_slots with
  | none => none
  | some none => some (0, q)
  | some (some slots) =>
    let k := min slots.length buffer.length
    q.write_to.map (fun w =>
      (k, Fixed.consider_enqueued { q with data := writeRange q.data w (buffer.take k) } k))

/-- Trait default `Queue::bulk_dequeue` instantiated for `Fixed`: expose items,
copy `min(slots.len, buffer.len)` items into the buffer prefix, then
`consider_dequeued` that count. Returns the count, the updated buffer, and the
updated queue. -/
def bulk_dequeue (q : Fixed T) (buffer : List T) : Option (Nat × List T × Fixed T) :=
  match q.expose_items with
  | none => none
  | some none => some (0, buffer, q)
  | some (some slots) =>
    let k := min slots.length buffer.length
    (q.consider_dequeued k).map (fun q2 => (k, slots.take k ++ buffer.drop k, q2))

/-- Repeated single-item enqueue, collecting the per-call results. -/
def enqueueList (q : Fixed T) (xs : List T) : Option (List (Option T) × Fixed T) :=
  match xs with
  | [] => some ([], q)
  | x :: rest =>
    match q.enqueue x with
    | none => none
    | some (r, q1) => (enqueueList q1 rest).map (fun p => (r :: p.1, p.2))

/-- Repeated single-item dequeue, collecting the per-call results. -/
def dequeueN (q : Fixed T) (n : Nat) : Option (List (Option T) × Fixed T) :=
  match n with
  | 0 => some ([], q)
  | m + 1 =>
    match q.dequeue with
    | none => none
    | some (r, q1) => (dequeueN q1 m).map (fun p => (r :: p.1, p.2))

/-- Abstraction: the slots holding the live items, oldest first — slot
`(read + k) % capacity` for `k < amount` (spec.md section 3, first invariant). -/
def itemsOpt (q : Fixed T) : List (Slot T) :=
  (List.range q.amount).map (fun k => q.data.getD ((q.read + k) % q.capacity) none)

/-- Well-formedness of a queue state, as maintained by the operations:
`amount ≤ capacity`, the read index in range (and `0` for a capacity-0
queue), and every live slot initialized. -/
def WF (q : Fixed T) : Prop :=
  q.amount ≤ q.capacity ∧ q.read < max q.capacity 1 ∧
    ∀ k, k < q.amount → (q.data.getD ((q.read + k) % q.capacity) none).isSome

instance decidableWF (q : Fixed T) : Decidable (WF q) := by
  unfold WF
  infer_instance

end Fixed

/-- Static queue `Static<T, N>` of static_.rs: same fields as `Fixed`, but the
capacity is the type-level constant `N` rather than the buffer length. -/
structure Static (T : Type) (N : Nat) where
  data : List (Slot T)
  read : Nat
  amount : Nat
deriving DecidableEq, Repr

namespace Static

variable {T : Type} {N : Nat}

/-- Construction `Static::new()`: `N` uninitialized slots, `read = 0`, `amount = 0`. -/
def new (T : Type) (N : Nat) : Static T N :=
  ⟨List.replicate N none, 0, 0⟩

/-- Method `Static::is_data_contiguous`: `self.read + self.amount < N`. -/
def is_data_contiguous (q : Static T N) : Bool := q.read + q.amount < N

/-- Method `Static::write_to`: `(self.read + self.amount) % N`. -/
def write_to (q : Static T N) : Option Nat := rustMod (q.read + q.amount) N

/-- Method `Static::readable_slice`: `data[read..write_to]` when contiguous, else
`data[read..]`. -/
def readable_slice (q : Static T N) : Option (List (Slot T)) :=
  if q.is_data_contiguous then
    q.write_to.map (fun w => (q.data.take w).drop q.read)
  else
    some (q.data.drop q.read)

/-- Method `Static::writeable_slice`: `data[write_to..capacity]` when contiguous,
else `data[write_to..read]`. -/
def writeable_slice (q : Static T N) : Option (List (Slot T)) :=
  q.write_to.map (fun w =>
    if q.is_data_contiguous then (q.data.take N).drop w
    else (q.data.take q.read).drop w)

/-- Trait method `Queue::len` for `Static`: `self.amount`. -/
def len (q : Static T N) : Nat := q.amount

/-- Trait method `Queue::enqueue` for `Static`: return the item if `amount == N`,
else write it at `write_to` and increment `amount`. -/
def enqueue (q : Static T N) (item : T) : Option (Option T × Static T N) :=
  if q.amount = N then some (some item, q)
  else
    q.write_to.map (fun w =>
      (none, { q with data := q.data.set w (some item), amount := q.amount + 1 }))

/-- Trait method `Queue::expose_slots` for `Static`: `None` when full, else the
writeable slice. -/
def expose_slots (q : Static T N) : Option (Option (List (Slot T))) :=
  if q.amount = N then some none
  else q.writeable_slice.map some

/-- Trait method `Queue::consider_enqueued` for `Static`: `self.amount += amount`. -/
def consider_enqueued (q : Static T N) (amount : Nat) : Static T N :=
  { q with amount := q.amount + amount }

/-- Trait method `Queue::dequeue` for `Static`: `None` when empty, else read the
slot at `read`, advance `read = (read + 1) % N`, decrement `amount`. -/
def dequeue (q : Static T N) : Option (Option T × Static T N) :=
  if q.amount = 0 then some (none, q)
  else
    match rustMod (q.read + 1) N, q.data.getD q.read none with
    | some r, some item => some (some item, { q with read := r, amount := q.amount - 1 })
    | _, _ => none

/-- Trait method `Queue::expose_items` for `Static`: `None` when empty, else the
readable slice with every slot assumed initialized. -/
def expose_items (q : Static T N) : Option (Option (List T)) :=
  if q.amount = 0 then some none
  else
    match q.readable_slice with
    | none => none
    | some s => (Fixed.initAll s).map some

/-- Trait method `Queue::consider_dequeued` for `Static`:
`read = (read + amount) % N`, `amount -= amount`. -/
def consider_dequeued (q : Static T N) (amount : Nat) : Option (Static T N) :=
  (rustMod (q.read + amount) N).map (fun r =>
    { q with read := r, amount := q.amount - amount })

/-- Trait default `Queue::bulk_enqueue` instantiated for `Static`. -/
def bulk_enqueue (q : Static T N) (buffer : List T) : Option (Nat × Static T N) :=
  match q.expose_slots with
  | none => none
  | some none => some (0, q)
  | some (some slots) =>
    let k := min slots.length buffer.length
    q.write_to.map (fun w =>
      (k, Static.consider_enqueued { q with data := Fixed.writeRange q.data w (buffer.take k) } k))

/-- Trait default `Queue::bulk_dequeue` instantiated for `Static`. -/
def bulk_dequeue (q : Static T N) (buffer : List T) : Option (Nat × List T × Static T N) :=
  match q.expose_items with
  | none => none
  | some none => some (0, buffer, q)
  | some (some slots) =>
    let k := min slots.length buffer.length
    (q.consider_dequeued k).map (fun q2 => (k, slots.take k ++ buffer.drop k, q2))

/-- Repeated single-item enqueue for `Static`, collecting the per-call results. -/
def enqueueList (q : Static T N) (xs : List T) : Option (List (Option T) × Static T N) :=
  match xs with
  | [] => some ([], q)
  | x :: rest =>
    match q.enqueue x with
    | none => none
    | some (r, q1) => (enqueueList q1 rest).map (fun p => (r :: p.1, p.2))

/-- Repeated single-item dequeue for `Static`, collecting the per-call results. -/
def dequeueN (q : Static T N) (n : Nat) : Option (List (Option T) × Static T N) :=
  match n with
  | 0 => some ([], q)
  | m + 1 =>
    match q.dequeue with
    | none => none
    | some (r, q1) => (dequeueN q1 m).map (fun p => (r :: p.1, p.2))

/-- View of a static queue as a heap-backed queue state with the same fields. -/
def toFixed (q : Static T N) : Fixed T := ⟨q.data, q.read, q.amount⟩

/-- Well-formedness of a static queue: the array really has `N` slots and the
shared ring-buffer invariants hold. -/
def WF (q : Static T N) : Prop := q.data.length = N ∧ Fixed.WF q.toFixed

instance decidableWF (q : Static T N) : Decidable (WF q) := by
  unfold WF
  infer_instance

/-- View of a heap-backed queue state as a static queue state with the same fields. -/
def ofFixed (N : Nat) (q : Fixed T) : Static T N := ⟨q.data, q.read, q.amount⟩

end Static

namespace Fixed

variable {T : Type}

/-- The state produced by a successful (non-full) enqueue. -/
def enqState (q : Fixed T) (item : T) : Fixed T :=
  ⟨q.data.set ((q.read + q.amount) % q.capacity) (some item), q.read, q.amount + 1⟩

/-- The state produced by a successful (non-empty) dequeue. -/
def deqState (q : Fixed T) : Fixed T :=
  ⟨q.data, (q.read + 1) % q.capacity, q.amount - 1⟩

/-- Length of the writeable slice: `capacity - write_to` when contiguous,
`read - write_to = capacity - amount` when wrapped. -/
def freeLen (q : Fixed T) : Nat :=
  if q.read + q.amount < q.capacity then q.capacity - (q.read + q.amount)
  else q.capacity - q.amount

/-- Length of the readable slice: `amount` when contiguous, `capacity - read`
when wrapped. -/
def readLen (q : Fixed T) : Nat :=
  if q.read + q.amount < q.capacity then q.amount else q.capacity - q.read

/-- Region description transcribed from the spec sentence for `expose_slots`
(spec.md section 4.1): the slots at indices `[write_to, capacity)` when the
data is contiguous, the slots at indices `[write_to, read)` when it wraps,
with `write_to = (read + amount) mod capacity`. Stated independently of the
implementation to compare the two. -/
def specWriteRegion (q : Fixed T) : List (Slot T) :=
  let w := (q.read + q.amount) % q.capacity
  let stop := if q.read + q.amount < q.capacity then q.capacity else q.read
  (List.range (stop - w)).map (fun j => q.data.getD (w + j) none)

end Fixed

/-- One scripted queue operation, as driven by the differential test harness of
spec.md section 6: single-item operations, the expose/confirm protocol (a
confirmation carries the values the caller wrote through the exposed slice),
and the bulk helpers. -/
inductive QOp (T : Type) where
  | len
  | enq (i : T)
  | deq
  | exposeSlots
  | considerEnq (vals : List T)
  | exposeItems
  | considerDeq (n : Nat)
  | bulkEnq (buf : List T)
  | bulkDeq (buf : List T)

/-- The observable result of one queue operation. -/
inductive QObs (T : Type) where
  | count (n : Nat)
  | ret (r : Option T)
  | slotsLen (r : Option Nat)
  | items (r : Option (List T))
  | deqd (n : Nat) (buf : List T)
  | confirmed
deriving DecidableEq

/-- The most recently exposed region, if its paired confirmation is still
pending: `true` marks a writeable-slots region, `false` a readable-items
region, together with the region length. Cleared by every other operation
(spec.md section 5: the region is invalidated by any other call). -/
abbrev LastExp := Option (Bool × Nat)

namespace Fixed

variable {T : Type}

/-- One step of the scripted-operation semantics for `Fixed`. `none` is a
panic, undefined behaviour, or a violated caller obligation of the
expose/confirm protocol (confirming without an immediately preceding expose,
or confirming more than was exposed). -/
def stepF (q : Fixed T) (le : LastExp) : QOp T → Option (QObs T × Fixed T × LastExp)
  | QOp.len => some (QObs.count q.len, q, none)
  | QOp.enq i => (q.enqueue i).map (fun p => (QObs.ret p.1, p.2, none))
  | QOp.deq => q.dequeue.map (fun p => (QObs.ret p.1, p.2, none))
  | QOp.exposeSlots =>
    q.expose_slots.map (fun r =>
      (QObs.slotsLen (r.map List.length), q,
        match r with
        | some s => some (true, s.length)
        | none => none))
  | QOp.considerEnq vals =>
    match le with
    | some (true, m) =>
      if vals.length ≤ m then
        q.write_to.map (fun w =>
          (QObs.confirmed,
            Fixed.consider_enqueued { q with data := writeRange q.data w vals } vals.length,
            none))
      else none
    | _ => none
  | QOp.exposeItems =>
    q.expose_items.map (fun r =>
      (QObs.items r, q,
        match r with
        | some s => some (false, s.length)
        | none => none))
  | QOp.considerDeq n =>
    match le with
    | some (false, m) =>
      if n ≤ m then (q.consider_dequeued n).map (fun q2 => (QObs.confirmed, q2, none))
      else none
    | _ => none
  | QOp.bulkEnq buf => (q.bulk_enqueue buf).map (fun p => (QObs.count p.1, p.2, none))
  | QOp.bulkDeq buf => (q.bulk_dequeue buf).map (fun p => (QObs.deqd p.1 p.2.1, p.2.2, none))

/-- Run a script of operations on a `Fixed` queue, collecting the observations. -/
def runF (q : Fixed T) (le : LastExp) : List (QOp T) → Option (List (QObs T) × Fixed T × LastExp)
  | [] => some ([], q, le)
  | op :: rest =>
    match stepF q le op with
    | none => none
    | some (o, q1, le1) => (runF q1 le1 rest).map (fun p => (o :: p.1, p.2))

/-- Invariant of the scripted-operation semantics: the queue is well formed,
and a pending exposed region has exactly the length of the current
writeable/readable slice. -/
def InvF (q : Fixed T) (le : LastExp) : Prop :=
  WF q ∧ (∀ m, le = some (true, m) → q.amount ≠ q.capacity ∧ m = freeLen q) ∧
    (∀ m, le = some (false, m) → q.amount ≠ 0 ∧ m = readLen q)

end Fixed

namespace Static

variable {T : Type} {N : Nat}

/-- One step of the scripted-operation semantics for `Static`, mirroring
`Fixed.stepF`. -/
def stepS (q : Static T N) (le : LastExp) : QOp T → Option (QObs T × Static T N × LastExp)
  | QOp.len => some (QObs.count q.len, q, none)
  | QOp.enq i => (q.enqueue i).map (fun p => (QObs.ret p.1, p.2, none))
  | QOp.deq => q.dequeue.map (fun p => (QObs.ret p.1, p.2, none))
  | QOp.exposeSlots =>
    q.expose_slots.map (fun r =>
      (QObs.slotsLen (r.map List.length), q,
        match r with
        | some s => some (true, s.length)
        | none => none))
  | QOp.considerEnq vals =>
    match le with
    | some (true, m) =>
      if vals.length ≤ m then
        q.write_to.map (fun w =>
          (QObs.confirmed,
            Static.consider_enqueued { q with data := Fixed.writeRange q.data w vals } vals.length,
            none))
      else none
    | _ => none
  | QOp.exposeItems =>
    q.expose_items.map (fun r =>
      (QObs.items r, q,
        match r with
        | some s => some (false, s.length)
        | none => none))
  | QOp.considerDeq n =>
    match le with
    | some (false, m) =>
      if n ≤ m then (q.consider_dequeued n).map (fun q2 => (QObs.confirmed, q2, none))
      else none
    | _ => none
  | QOp.bulkEnq buf => (q.bulk_enqueue buf).map (fun p => (QObs.count p.1, p.2, none))
  | QOp.bulkDeq buf => (q.bulk_dequeue buf).map (fun p => (QObs.deqd p.1 p.2.1, p.2.2, none))

/-- Run a script of operations on a `Static` queue, collecting the observations. -/
def runS (q : Static T N) (le : LastExp) : List (QOp T) → Option (List (QObs T) × Static T N × LastExp)
  | [] => some ([], q, le)
  | op :: rest =>
    match stepS q le op with
    | none => none
    | some (o, q1, le1) => (runS q1 le1 rest).map (fun p => (o :: p.1, p.2))

end Static

namespace Fixed

variable {T : Type}

lemma addModInj {n a b c : Nat} (ha : a < n) (hb : b < n)
    (h : (c + a) % n = (c + b) % n) : a = b :=
  (Nat.ModEq.add_left_cancel' c h).eq_of_lt_of_lt ha hb

lemma length_writeRange (data : List (Slot T)) (start : Nat) (items : List T) :
    (writeRange data start items).length = data.length := by
  induction items generalizing data start with
  | nil => rfl
  | cons x rest ih => simp [writeRange, ih]

lemma capacity_new (c : Nat) : (new T c).capacity = c := by
  simp [new, capacity]

lemma WF_new (c : Nat) : WF (new T c) := by
  refine ⟨by simp [new, capacity], by simp [new], fun k hk => ?_⟩
  simp [new] at hk

lemma write_to_some {q : Fixed T} (h : 0 < q.capacity) :
    q.write_to = some ((q.read + q.amount) % q.capacity) := by
  rw [write_to, rustMod, if_neg (by omega)]

lemma getD_set_self {l : List (Slot T)} {i : Nat} (h : i < l.length) (a : Slot T) :
    (l.set i a).getD i none = a := by
  simp [List.getD_eq_getElem?_getD, List.getElem?_set, h]

lemma getD_set_ne {l : List (Slot T)} {i j : Nat} (h : i ≠ j) (a : Slot T) :
    (l.set i a).getD j none = l.getD j none := by
  simp [List.getD_eq_getElem?_getD, List.getElem?_set, h]

lemma mem_itemsOpt_isSome {q : Fixed T} (hWF : WF q) : ∀ x ∈ itemsOpt q, x.isSome := by
  intro x hx
  rw [itemsOpt] at hx
  obtain ⟨k, hk, rfl⟩ := List.mem_map.mp hx
  exact hWF.2.2 k (List.mem_range.mp hk)

lemma WF_of_items {q : Fixed T} (h1 : q.amount ≤ q.capacity) (h2 : q.read < max q.capacity 1)
    (h3 : ∀ x ∈ itemsOpt q, x.isSome) : WF q := by
  refine ⟨h1, h2, fun k hk => ?_⟩
  exact h3 _ (by rw [itemsOpt]; exact List.mem_map_of_mem _ (List.mem_range.mpr hk))

lemma enqueue_full {q : Fixed T} (h : q.amount = q.capacity) (i : T) :
    q.enqueue i = some (some i, q) := by
  simp [enqueue, h]

lemma enqueue_not_full {q : Fixed T} (h : q.amount < q.capacity) (i : T) :
    q.enqueue i = some (none, enqState q i) := by
  rw [enqueue, if_neg (by omega), write_to_some (by omega)]
  rfl

lemma capacity_enqState (q : Fixed T) (i : T) : (enqState q i).capacity = q.capacity := by
  simp [enqState, capacity]

lemma itemsOpt_enqState {q : Fixed T} (h : q.amount < q.capacity) (i : T) :
    itemsOpt (enqState q i) = itemsOpt q ++ [some i] := by
  have hcap : 0 < q.capacity := by omega
  have hwlt : (q.read + q.amount) % q.capacity < q.capacity := Nat.mod_lt _ hcap
  rw [itemsOpt, itemsOpt, capacity_enqState,
    show (enqState q i).amount = q.amount + 1 from rfl,
    show (enqState q i).read = q.read from rfl,
    show (enqState q i).data = q.data.set ((q.read + q.amount) % q.capacity) (some i) from rfl,
    List.range_succ q.amount, List.map_append]
  congr 1
  · apply List.map_congr_left
    intro k hk
    have hk2 : k < q.amount := List.mem_range.mp hk
    refine getD_set_ne (fun heq => ?_) _
    have : q.amount = k := addModInj h (by omega) heq
    omega
  · simp only [List.map_cons, List.map_nil, List.cons.injEq, and_true]
    exact getD_set_self (by rw [show q.data.length = q.capacity from rfl]; exact hwlt) _

lemma WF_enqState {q : Fixed T} (hWF : WF q) (h : q.amount < q.capacity) (i : T) :
    WF (enqState q i) := by
  refine WF_of_items ?_ ?_ ?_
  · rw [capacity_enqState]
    show q.amount + 1 ≤ q.capacity
    omega
  · rw [capacity_enqState]
    exact hWF.2.1
  · rw [itemsOpt_enqState h]
    intro x hx
    rcases List.mem_append.mp hx with hx2 | hx2
    · exact mem_itemsOpt_isSome hWF x hx2
    · simp at hx2
      simp [hx2]

lemma dequeue_empty {q : Fixed T} (h : q.amount = 0) : q.dequeue = some (none, q) := by
  simp [dequeue, h]

lemma dequeue_not_empty {q : Fixed T} (hWF : WF q) (h : q.amount ≠ 0) :
    ∃ x, q.data.getD q.read none = some x ∧ q.dequeue = some (some x, deqState q) := by
  have hcap : 0 < q.capacity := by have := hWF.1; omega
  have hread : q.read < q.capacity := by have := hWF.2.1; omega
  have h0 := hWF.2.2 0 (by omega)
  rw [Nat.add_zero, Nat.mod_eq_of_lt hread] at h0
  obtain ⟨x, hx⟩ := Option.isSome_iff_exists.mp h0
  refine ⟨x, hx, ?_⟩
  rw [dequeue, if_neg h, show rustMod (q.read + 1) q.capacity
    = some ((q.read + 1) % q.capacity) from by rw [rustMod, if_neg (by omega)], hx]
  rfl

lemma itemsOpt_cons {q : Fixed T} (hWF : WF q) (h : q.amount ≠ 0) :
    itemsOpt q = q.data.getD q.read none :: itemsOpt (deqState q) := by
  have hcap : 0 < q.capacity := by have := hWF.1; omega
  have hread : q.read < q.capacity := by have := hWF.2.1; omega
  obtain ⟨m, hm⟩ : ∃ m, q.amount = m + 1 := ⟨q.amount - 1, by omega⟩
  rw [itemsOpt, itemsOpt,
    show (deqState q).capacity = q.capacity from rfl,
    show (deqState q).amount = q.amount - 1 from rfl,
    show (deqState q).read = (q.read + 1) % q.capacity from rfl,
    show (deqState q).data = q.data from rfl, hm, List.range_succ_eq_map, List.map_cons]
  show _ = q.data.getD q.read none :: _
  rw [show m + 1 - 1 = m from rfl, List.map_map]
  congr 1
  · rw [Nat.add_zero, Nat.mod_eq_of_lt hread]
  · apply List.map_congr_left
    intro k _
    show q.data.getD ((q.read + Nat.succ k) % q.capacity) none
      = q.data.getD (((q.read + 1) % q.capacity + k) % q.capacity) none
    rw [Nat.mod_add_mod]
    congr 2
    omega

lemma WF_deqState {q : Fixed T} (hWF : WF q) (h : q.amount ≠ 0) : WF (deqState q) := by
  have hcap : 0 < q.capacity := by have := hWF.1; omega
  refine WF_of_items ?_ ?_ ?_
  · show q.amount - 1 ≤ q.capacity
    have := hWF.1
    omega
  · show (q.read + 1) % q.capacity < max q.capacity 1
    have := Nat.mod_lt (q.read + 1) hcap
    omega
  · intro x hx
    refine mem_itemsOpt_isSome hWF x ?_
    rw [itemsOpt_cons hWF h]
    exact List.mem_cons_of_mem _ hx

end Fixed

namespace Fixed

variable {T : Type}

lemma enqueueList_of_le : ∀ (xs : List T) (q : Fixed T), WF q →
    q.amount + xs.length ≤ q.capacity →
    ∃ q1, enqueueList q xs = some (xs.map (fun _ => none), q1) ∧ WF q1 ∧
      q1.capacity = q.capacity ∧ q1.read = q.read ∧ q1.amount = q.amount + xs.length ∧
      itemsOpt q1 = itemsOpt q ++ xs.map some := by
  intro xs
  induction xs with
  | nil =>
    intro q hWF _
    exact ⟨q, rfl, hWF, rfl, rfl, by simp, by simp⟩
  | cons x rest ih =>
    intro q hWF hle
    have hlt : q.amount < q.capacity := by
      simp only [List.length_cons] at hle
      omega
    obtain ⟨q1, h1, hWF1, hcap1, hread1, hamt1, hitems1⟩ :=
      ih (enqState q x) (WF_enqState hWF hlt x)
        (by
          rw [capacity_enqState]
          show q.amount + 1 + rest.length ≤ q.capacity
          simp only [List.length_cons] at hle
          omega)
    refine ⟨q1, ?_, hWF1, ?_, ?_, ?_, ?_⟩
    · simp only [enqueueList, enqueue_not_full hlt, h1, List.map_cons]
      rfl
    · rw [hcap1, capacity_enqState]
    · rw [hread1]
      rfl
    · rw [hamt1]
      show q.amount + 1 + rest.length = q.amount + (x :: rest).length
      simp only [List.length_cons]
      omega
    · rw [hitems1, itemsOpt_enqState hlt]
      simp

lemma dequeueN_spec : ∀ (n : Nat) (q : Fixed T), WF q → n ≤ q.amount →
    ∃ q2, dequeueN q n = some ((itemsOpt q).take n, q2) ∧ WF q2 ∧
      q2.capacity = q.capacity ∧ q2.amount = q.amount - n ∧
      itemsOpt q2 = (itemsOpt q).drop n := by
  intro n
  induction n with
  | zero =>
    intro q hWF _
    exact ⟨q, by simp [dequeueN], hWF, rfl, by omega, by simp⟩
  | succ m ih =>
    intro q hWF hle
    have hne : q.amount ≠ 0 := by omega
    obtain ⟨x, hx, hdq⟩ := dequeue_not_empty hWF hne
    obtain ⟨q2, h2, hWF2, hcap2, hamt2, hit2⟩ :=
      ih (deqState q) (WF_deqState hWF hne)
        (by show m ≤ q.amount - 1; omega)
    have hcons := itemsOpt_cons hWF hne
    refine ⟨q2, ?_, hWF2, ?_, ?_, ?_⟩
    · simp only [dequeueN, hdq, h2, hcons, hx, List.take_succ_cons]
      rfl
    · rw [hcap2]
      rfl
    · rw [hamt2]
      show q.amount - 1 - m = q.amount - (m + 1)
      omega
    · rw [hit2, hcons]
      simp

end Fixed

namespace Fixed

variable {T : Type}

lemma take_drop_eq_range_map (l : List (Slot T)) (a b : Nat) (hb : b ≤ l.length) :
    (l.take b).drop a = (List.range (b - a)).map (fun j => l.getD (a + j) none) := by
  apply List.ext_getElem?
  intro i
  rw [List.getElem?_drop, List.getElem?_take, List.getElem?_map]
  by_cases hi : i < b - a
  · have h1 : a + i < b := by omega
    have h2 : a + i < l.length := by omega
    rw [if_pos h1, List.getElem?_range hi, List.getElem?_eq_getElem h2,
      Option.map_some']
    congr 1
    rw [List.getD_eq_getElem?_getD, List.getElem?_eq_getElem h2]
    rfl
  · have h3 : (List.range (b - a))[i]? = none :=
      List.getElem?_eq_none (by rw [List.length_range]; omega)
    rw [h3, Option.map_none']
    by_cases h4 : a + i < b
    · omega
    · rw [if_neg h4]

lemma readLen_le_amount (q : Fixed T) : readLen q ≤ q.amount := by
  rw [readLen]
  by_cases hc : q.read + q.amount < q.capacity <;> simp [hc] <;> omega

lemma readable_slice_eq {q : Fixed T} (hWF : WF q) (hne : q.amount ≠ 0) :
    q.readable_slice
      = some ((List.range (readLen q)).map (fun j => q.data.getD (q.read + j) none)) := by
  have hcap : 0 < q.capacity := by have := hWF.1; omega
  have hread : q.read < q.capacity := by have := hWF.2.1; omega
  by_cases hc : q.read + q.amount < q.capacity
  · have hw : (q.read + q.amount) % q.capacity = q.read + q.amount := Nat.mod_eq_of_lt hc
    rw [readable_slice, if_pos (by simp [is_data_contiguous, hc]), write_to_some hcap, hw]
    rw [Option.map_some']
    congr 1
    rw [take_drop_eq_range_map q.data q.read (q.read + q.amount) (by
      show q.read + q.amount ≤ q.capacity
      omega)]
    have hlen : q.read + q.amount - q.read = readLen q := by
      rw [readLen, if_pos hc]
      omega
    rw [hlen]
  · rw [readable_slice, if_neg (by simp [is_data_contiguous, hc])]
    congr 1
    rw [show q.data.drop q.read = (q.data.take q.data.length).drop q.read from by
      rw [List.take_length]]
    rw [take_drop_eq_range_map q.data q.read q.data.length (le_refl _)]
    have hlen : q.data.length - q.read = readLen q := by
      rw [readLen, if_neg hc]
      rfl
    rw [hlen]

lemma writeable_slice_eq {q : Fixed T} (hWF : WF q) (hnf : q.amount ≠ q.capacity) :
    q.writeable_slice = some ((List.range (freeLen q)).map (fun j =>
      q.data.getD ((q.read + q.amount) % q.capacity + j) none)) := by
  have hlt : q.amount < q.capacity := by have := hWF.1; omega
  have hcap : 0 < q.capacity := by omega
  have hread : q.read < q.capacity := by have := hWF.2.1; omega
  by_cases hc : q.read + q.amount < q.capacity
  · have hw : (q.read + q.amount) % q.capacity = q.read + q.amount := Nat.mod_eq_of_lt hc
    rw [writeable_slice, write_to_some hcap, Option.map_some']
    congr 1
    rw [if_pos (by simp [is_data_contiguous, hc]), hw]
    rw [show q.data.drop (q.read + q.amount)
        = (q.data.take q.data.length).drop (q.read + q.amount) from by rw [List.take_length]]
    rw [take_drop_eq_range_map q.data (q.read + q.amount) q.data.length (le_refl _)]
    have hlen : q.data.length - (q.read + q.amount) = freeLen q := by
      rw [freeLen, if_pos hc]
      rfl
    rw [hlen]
  · have hw : (q.read + q.amount) % q.capacity = q.read + q.amount - q.capacity := by
      rw [Nat.mod_eq_sub_mod (by omega), Nat.mod_eq_of_lt (by omega)]
    rw [writeable_slice, write_to_some hcap, Option.map_some']
    congr 1
    rw [if_neg (by simp [is_data_contiguous, hc]), hw]
    rw [take_drop_eq_range_map q.data (q.read + q.amount - q.capacity) q.read (by
      show q.read ≤ q.capacity
      omega)]
    have hlen : q.read - (q.read + q.amount - q.capacity) = freeLen q := by
      rw [freeLen, if_neg hc]
      omega
    rw [hlen]

lemma freeLen_le (q : Fixed T) (hWF : WF q) : freeLen q ≤ q.capacity - q.amount := by
  have := hWF.2.1
  rw [freeLen]
  by_cases hc : q.read + q.amount < q.capacity <;> simp [hc] <;> omega

lemma freeLen_pos {q : Fixed T} (hWF : WF q) (hnf : q.amount ≠ q.capacity) :
    0 < freeLen q := by
  have h1 := hWF.1
  have h2 := hWF.2.1
  rw [freeLen]
  by_cases hc : q.read + q.amount < q.capacity <;> simp [hc] <;> omega

lemma readLen_pos {q : Fixed T} (hWF : WF q) (hne : q.amount ≠ 0) :
    0 < readLen q := by
  have h1 := hWF.1
  have h2 := hWF.2.1
  rw [readLen]
  by_cases hc : q.read + q.amount < q.capacity <;> simp [hc] <;> omega

lemma region_step {q : Fixed T} (hWF : WF q) (hnf : q.amount ≠ q.capacity)
    {j : Nat} (hj : j < freeLen q) :
    (q.read + q.amount + j) % q.capacity = (q.read + q.amount) % q.capacity + j := by
  have h1 := hWF.1
  have h2 := hWF.2.1
  by_cases hc : q.read + q.amount < q.capacity
  · rw [freeLen, if_pos hc] at hj
    rw [Nat.mod_eq_of_lt (by omega), Nat.mod_eq_of_lt hc]
  · rw [freeLen, if_neg hc] at hj
    have hw : (q.read + q.amount) % q.capacity = q.read + q.amount - q.capacity := by
      rw [Nat.mod_eq_sub_mod (by omega), Nat.mod_eq_of_lt (by omega)]
    have hw2 : (q.read + q.amount + j) % q.capacity = q.read + q.amount + j - q.capacity := by
      rw [Nat.mod_eq_sub_mod (by omega), Nat.mod_eq_of_lt (by omega)]
    omega

end Fixed

namespace Fixed

variable {T : Type}

lemma initAll_eq_some : ∀ (l : List (Slot T)), (∀ x ∈ l, x.isSome) →
    ∃ l2, l = l2.map some ∧ initAll l = some l2 := by
  intro l
  induction l with
  | nil => exact fun _ => ⟨[], rfl, rfl⟩
  | cons x rest ih =>
    intro h
    obtain ⟨v, hv⟩ := Option.isSome_iff_exists.mp (h x (List.mem_cons_self x rest))
    obtain ⟨l2, hl2, hinit⟩ := ih (fun y hy => h y (List.mem_cons_of_mem _ hy))
    subst hv
    refine ⟨v :: l2, by rw [hl2]; rfl, ?_⟩
    rw [show initAll (some v :: rest) = (initAll rest).map (fun l => v :: l) from rfl, hinit]
    rfl

lemma expose_slots_full {q : Fixed T} (h : q.amount = q.capacity) :
    q.expose_slots = some none := by
  simp [expose_slots, h]

lemma expose_slots_not_full {q : Fixed T} (hWF : WF q) (hnf : q.amount ≠ q.capacity) :
    q.expose_slots = some (some ((List.range (freeLen q)).map (fun j =>
      q.data.getD ((q.read + q.amount) % q.capacity + j) none))) := by
  rw [expose_slots, if_neg hnf, writeable_slice_eq hWF hnf]
  rfl

lemma expose_items_empty {q : Fixed T} (h : q.amount = 0) :
    q.expose_items = some none := by
  simp [expose_items, h]

lemma readLen_index {q : Fixed T} (hWF : WF q) {j : Nat} (hj : j < readLen q) :
    (q.read + j) % q.capacity = q.read + j ∧ j < q.amount := by
  have h1 := hWF.1
  have h2 := hWF.2.1
  rw [readLen] at hj
  by_cases hc : q.read + q.amount < q.capacity
  · rw [if_pos hc] at hj
    exact ⟨Nat.mod_eq_of_lt (by omega), by omega⟩
  · rw [if_neg hc] at hj
    exact ⟨Nat.mod_eq_of_lt (by omega), by omega⟩

lemma expose_items_not_empty {q : Fixed T} (hWF : WF q) (hne : q.amount ≠ 0) :
    ∃ l2 : List T, q.expose_items = some (some l2) ∧
      l2.map some
        = (List.range (readLen q)).map (fun j => q.data.getD (q.read + j) none) ∧
      l2.length = readLen q := by
  have hsome : ∀ x ∈ (List.range (readLen q)).map
      (fun j => q.data.getD (q.read + j) none), x.isSome := by
    intro x hx
    obtain ⟨j, hj, rfl⟩ := List.mem_map.mp hx
    have hj2 := List.mem_range.mp hj
    obtain ⟨hmod, hja⟩ := readLen_index hWF hj2
    have := hWF.2.2 j hja
    rw [hmod] at this
    exact this
  obtain ⟨l2, hl2, hinit⟩ := initAll_eq_some _ hsome
  refine ⟨l2, ?_, hl2.symm, ?_⟩
  · rw [expose_items, if_neg hne, readable_slice_eq hWF hne]
    show (initAll _).map some = _
    rw [hl2] at hinit ⊢
    rw [hinit]
    rfl
  · have := congrArg List.length hl2
    simp at this
    omega

lemma specWriteRegion_eq {q : Fixed T} (hWF : WF q) (hnf : q.amount ≠ q.capacity) :
    specWriteRegion q = (List.range (freeLen q)).map (fun j =>
      q.data.getD ((q.read + q.amount) % q.capacity + j) none) := by
  have h1 := hWF.1
  have h2 := hWF.2.1
  rw [specWriteRegion]
  by_cases hc : q.read + q.amount < q.capacity
  · have hw : (q.read + q.amount) % q.capacity = q.read + q.amount := Nat.mod_eq_of_lt hc
    have hlen : (if q.read + q.amount < q.capacity then q.capacity else q.read)
        - (q.read + q.amount) % q.capacity = freeLen q := by
      rw [if_pos hc, hw, freeLen, if_pos hc]
    rw [hlen]
  · have hw : (q.read + q.amount) % q.capacity = q.read + q.amount - q.capacity := by
      rw [Nat.mod_eq_sub_mod (by omega), Nat.mod_eq_of_lt (by omega)]
    have hlen : (if q.read + q.amount < q.capacity then q.capacity else q.read)
        - (q.read + q.amount) % q.capacity = freeLen q := by
      rw [if_neg hc, hw, freeLen, if_neg hc]
      omega
    rw [hlen]

lemma enqueueList_fill : ∀ (vals : List T) (q : Fixed T) (w : Nat), WF q →
    q.amount + vals.length ≤ q.capacity →
    (∀ j, j < vals.length → (q.read + q.amount + j) % q.capacity = w + j) →
    enqueueList q vals = some (vals.map (fun _ => none),
      ⟨writeRange q.data w vals, q.read, q.amount + vals.length⟩) := by
  intro vals
  induction vals with
  | nil =>
    intro q w _ _ _
    rfl
  | cons v rest ih =>
    intro q w hWF hle hphys
    have hlen : (v :: rest).length = rest.length + 1 := rfl
    have hlt : q.amount < q.capacity := by
      rw [hlen] at hle
      omega
    have hw : (q.read + q.amount) % q.capacity = w := by
      have := hphys 0 (by simp)
      simpa using this
    have hwlt : w < q.capacity := by
      rw [← hw]
      exact Nat.mod_lt _ (by omega)
    have hstate : enqState q v = ⟨q.data.set w (some v), q.read, q.amount + 1⟩ := by
      rw [enqState, hw]
    have hdl : q.data.length = q.capacity := rfl
    have hrec := ih ⟨q.data.set w (some v), q.read, q.amount + 1⟩ (w + 1)
      (by rw [← hstate]; exact WF_enqState hWF hlt v)
      (by
        show q.amount + 1 + rest.length ≤ (q.data.set w (some v)).length
        rw [List.length_set, hdl]
        rw [hlen] at hle
        omega)
      (by
        intro j hj
        show (q.read + (q.amount + 1) + j) % (q.data.set w (some v)).length = w + 1 + j
        rw [List.length_set, hdl]
        have := hphys (j + 1) (by rw [hlen]; omega)
        rw [show q.read + (q.amount + 1) + j = q.read + q.amount + (j + 1) from by omega, this]
        omega)
    have hamt : q.amount + (v :: rest).length = q.amount + 1 + rest.length := by
      rw [hlen]
      omega
    rw [show enqueueList q (v :: rest)
        = match q.enqueue v with
          | none => none
          | some (r, q1) => (enqueueList q1 rest).map (fun p => (r :: p.1, p.2)) from rfl,
      enqueue_not_full hlt, hstate]
    show (enqueueList ⟨q.data.set w (some v), q.read, q.amount + 1⟩ rest).map
        (fun p => ((none : Option T) :: p.1, p.2)) = _
    rw [hrec, hamt]
    rfl

lemma bulk_enqueue_full {q : Fixed T} (h : q.amount = q.capacity) (buf : List T) :
    q.bulk_enqueue buf = some (0, q) := by
  rw [bulk_enqueue.eq_def, expose_slots_full h]

lemma bulk_enqueue_not_full {q : Fixed T} (hWF : WF q) (hnf : q.amount ≠ q.capacity)
    (buf : List T) :
    q.bulk_enqueue buf = some (min (freeLen q) buf.length,
      ⟨writeRange q.data ((q.read + q.amount) % q.capacity)
         (buf.take (min (freeLen q) buf.length)),
       q.read, q.amount + min (freeLen q) buf.length⟩) := by
  have hcap : 0 < q.capacity := by have := hWF.1; omega
  rw [bulk_enqueue.eq_def, expose_slots_not_full hWF hnf, write_to_some hcap]
  show some (_, Fixed.consider_enqueued _ _) = _
  rw [consider_enqueued]
  simp only [List.length_map, List.length_range]

lemma bulk_enqueue_eq_enqueueList {q : Fixed T} (hWF : WF q) (hnf : q.amount ≠ q.capacity)
    (buf : List T) :
    enqueueList q (buf.take (min (freeLen q) buf.length))
      = some ((buf.take (min (freeLen q) buf.length)).map (fun _ => none),
        ⟨writeRange q.data ((q.read + q.amount) % q.capacity)
           (buf.take (min (freeLen q) buf.length)),
         q.read, q.amount + min (freeLen q) buf.length⟩) := by
  have hcap : 0 < q.capacity := by have := hWF.1; omega
  have hk : (buf.take (min (freeLen q) buf.length)).length = min (freeLen q) buf.length := by
    rw [List.length_take]
    omega
  have h2 := enqueueList_fill (buf.take (min (freeLen q) buf.length)) q
    ((q.read + q.amount) % q.capacity) hWF
    (by
      rw [hk]
      have := freeLen_le q hWF
      have := hWF.1
      omega)
    (by
      intro j hj
      rw [hk] at hj
      exact region_step hWF hnf (by omega))
  rw [h2, hk]

lemma consider_dequeued_eq {q : Fixed T} (hcap : 0 < q.capacity) (k : Nat) :
    q.consider_dequeued k = some ⟨q.data, (q.read + k) % q.capacity, q.amount - k⟩ := by
  rw [consider_dequeued, rustMod, if_neg (by omega)]
  rfl

lemma drop_range_map (f : Nat → Slot T) (n m : Nat) :
    ((List.range n).map f).drop m = (List.range (n - m)).map (fun j => f (m + j)) := by
  apply List.ext_getElem?
  intro i
  rw [List.getElem?_drop, List.getElem?_map, List.getElem?_map]
  by_cases hi : m + i < n
  · rw [List.getElem?_range hi, List.getElem?_range (by omega : i < n - m)]
    rfl
  · rw [List.getElem?_eq_none (by rw [List.length_range]; omega),
      List.getElem?_eq_none (by rw [List.length_range]; omega)]
    rfl

lemma advance_read {q : Fixed T} (hWF : WF q) (hcap : 0 < q.capacity) {k : Nat}
    (hk : k ≤ q.amount) :
    itemsOpt ⟨q.data, (q.read + k) % q.capacity, q.amount - k⟩ = (itemsOpt q).drop k ∧
    WF ⟨q.data, (q.read + k) % q.capacity, q.amount - k⟩ := by
  have hitems : itemsOpt ⟨q.data, (q.read + k) % q.capacity, q.amount - k⟩
      = (itemsOpt q).drop k := by
    rw [itemsOpt, itemsOpt, drop_range_map]
    show (List.range (q.amount - k)).map _ = _
    apply List.map_congr_left
    intro j _
    show q.data.getD (((q.read + k) % q.capacity + j) % q.capacity) none
      = q.data.getD ((q.read + (k + j)) % q.capacity) none
    rw [Nat.mod_add_mod]
    congr 2
    omega
  refine ⟨hitems, ?_⟩
  refine WF_of_items ?_ ?_ ?_
  · show q.amount - k ≤ q.capacity
    have := hWF.1
    omega
  · show (q.read + k) % q.capacity < max q.capacity 1
    have := Nat.mod_lt (q.read + k) hcap
    omega
  · rw [hitems]
    intro x hx
    exact mem_itemsOpt_isSome hWF x (List.drop_subset _ _ hx)

end Fixed

namespace Fixed

variable {T : Type}

lemma itemsOpt_take_readLen {q : Fixed T} (hWF : WF q) :
    (itemsOpt q).take (readLen q)
      = (List.range (readLen q)).map (fun j => q.data.getD (q.read + j) none) := by
  rw [itemsOpt, ← List.map_take, List.take_range]
  have hmin : min (readLen q) q.amount = readLen q := by
    have := readLen_le_amount q
    omega
  rw [hmin]
  apply List.map_congr_left
  intro j hj
  rw [(readLen_index hWF (List.mem_range.mp hj)).1]

lemma bulk_dequeue_empty {q : Fixed T} (h : q.amount = 0) (buf : List T) :
    q.bulk_dequeue buf = some (0, buf, q) := by
  rw [bulk_dequeue.eq_def, expose_items_empty h]

lemma bulk_dequeue_not_empty {q : Fixed T} (hWF : WF q) (hne : q.amount ≠ 0) (buf : List T) :
    ∃ l2 : List T, q.bulk_dequeue buf = some (min (readLen q) buf.length,
        l2.take (min (readLen q) buf.length) ++ buf.drop (min (readLen q) buf.length),
        ⟨q.data, (q.read + min (readLen q) buf.length) % q.capacity,
         q.amount - min (readLen q) buf.length⟩) ∧
      l2.map some = (itemsOpt q).take (readLen q) ∧ l2.length = readLen q := by
  have hcap : 0 < q.capacity := by have := hWF.1; omega
  obtain ⟨l2, hexp, hmap, hlen⟩ := expose_items_not_empty hWF hne
  refine ⟨l2, ?_, by rw [hmap, itemsOpt_take_readLen hWF], hlen⟩
  rw [bulk_dequeue.eq_def, hexp]
  show (q.consider_dequeued (min l2.length buf.length)).map _ = _
  rw [hlen, consider_dequeued_eq hcap]
  rfl

lemma bulk_enqueue_cases {q : Fixed T} (hWF : WF q) (buf : List T) :
    ∃ k q2, q.bulk_enqueue buf = some (k, q2) ∧ WF q2 ∧ q2.capacity = q.capacity ∧
      itemsOpt q2 = itemsOpt q ++ ((buf.take k).map some) ∧
      q2.amount = q.amount + k ∧ k ≤ q.capacity - q.amount := by
  by_cases hnf : q.amount = q.capacity
  · exact ⟨0, q, bulk_enqueue_full hnf buf, hWF, rfl, by simp, by omega, by omega⟩
  · obtain ⟨q1, henq, hWF1, hcap1, _, hamt1, hitems1⟩ :=
      enqueueList_of_le (buf.take (min (freeLen q) buf.length)) q hWF
        (by
          rw [List.length_take]
          have := freeLen_le q hWF
          have := hWF.1
          omega)
    have hfill := bulk_enqueue_eq_enqueueList hWF hnf buf
    rw [henq] at hfill
    have hq1 : q1 = ⟨writeRange q.data ((q.read + q.amount) % q.capacity)
        (buf.take (min (freeLen q) buf.length)), q.read,
        q.amount + min (freeLen q) buf.length⟩ := by
      have := Option.some.inj hfill
      exact congrArg Prod.snd this
    refine ⟨min (freeLen q) buf.length, q1, ?_, hWF1, hcap1, ?_, ?_, ?_⟩
    · rw [bulk_enqueue_not_full hWF hnf buf, hq1]
    · rw [hitems1]
    · rw [hamt1, List.length_take]
      congr 1
      omega
    · have := freeLen_le q hWF
      omega

lemma bulk_dequeue_cases {q : Fixed T} (hWF : WF q) (buf : List T) :
    ∃ k b q2, q.bulk_dequeue buf = some (k, b, q2) ∧ WF q2 ∧ q2.capacity = q.capacity ∧
      itemsOpt q2 = (itemsOpt q).drop k ∧ q2.amount = q.amount - k ∧ k ≤ q.amount := by
  by_cases hne : q.amount = 0
  · exact ⟨0, buf, q, bulk_dequeue_empty hne buf, hWF, rfl, by simp, by omega, by omega⟩
  · have hcap : 0 < q.capacity := by have := hWF.1; omega
    obtain ⟨l2, hbulk, _, _⟩ := bulk_dequeue_not_empty hWF hne buf
    have hk : min (readLen q) buf.length ≤ q.amount := by
      have := readLen_le_amount q
      omega
    obtain ⟨hitems, hWF2⟩ := advance_read hWF hcap hk
    exact ⟨min (readLen q) buf.length, _, _, hbulk, hWF2, rfl, hitems, rfl, hk⟩

end Fixed

namespace Fixed

variable {T : Type}

lemma InvF_none_of_WF {q : Fixed T} (hWF : WF q) : InvF q none :=
  ⟨hWF, fun m hm => by simp at hm, fun m hm => by simp at hm⟩

lemma stepF_preserves {q : Fixed T} {le : LastExp} {op : QOp T} {o : QObs T}
    {q2 : Fixed T} {le2 : LastExp} (hInv : InvF q le)
    (h : stepF q le op = some (o, q2, le2)) : InvF q2 le2 := by
  obtain ⟨hWF, hslots, hitems⟩ := hInv
  cases op with
  | len =>
    simp only [stepF, Option.some.injEq, Prod.mk.injEq] at h
    obtain ⟨-, hq, hle⟩ := h
    rw [← hq, ← hle]
    exact InvF_none_of_WF hWF
  | enq i =>
    simp only [stepF] at h
    rw [Option.map_eq_some'] at h
    obtain ⟨p, hp, heq⟩ := h
    obtain ⟨-, heq2⟩ := Prod.mk.injEq .. |>.mp heq
    cases heq2
    by_cases hf : q.amount = q.capacity
    · rw [enqueue_full hf] at hp
      obtain rfl : (some i, q) = p := Option.some.inj hp
      exact InvF_none_of_WF hWF
    · have hlt : q.amount < q.capacity := by have := hWF.1; omega
      rw [enqueue_not_full hlt] at hp
      obtain rfl : ((none : Option T), enqState q i) = p := Option.some.inj hp
      exact InvF_none_of_WF (WF_enqState hWF hlt i)
  | deq =>
    simp only [stepF] at h
    rw [Option.map_eq_some'] at h
    obtain ⟨p, hp, heq⟩ := h
    obtain ⟨-, heq2⟩ := Prod.mk.injEq .. |>.mp heq
    cases heq2
    by_cases hf : q.amount = 0
    · rw [dequeue_empty hf] at hp
      obtain rfl : ((none : Option T), q) = p := Option.some.inj hp
      exact InvF_none_of_WF hWF
    · obtain ⟨x, -, hdq⟩ := dequeue_not_empty hWF hf
      rw [hdq] at hp
      obtain rfl : (some x, deqState q) = p := Option.some.inj hp
      exact InvF_none_of_WF (WF_deqState hWF hf)
  | exposeSlots =>
    simp only [stepF] at h
    rw [Option.map_eq_some'] at h
    obtain ⟨r, hr, heq⟩ := h
    obtain ⟨-, heq2⟩ := Prod.mk.injEq .. |>.mp heq
    cases heq2
    by_cases hf : q.amount = q.capacity
    · rw [expose_slots_full hf] at hr
      obtain rfl : (none : Option (List (Slot T))) = r := Option.some.inj hr
      exact InvF_none_of_WF hWF
    · rw [expose_slots_not_full hWF hf] at hr
      obtain rfl := Option.some.inj hr
      refine ⟨hWF, ?_, ?_⟩
      · intro m hm
        simp only [Option.some.injEq, Prod.mk.injEq] at hm
        refine ⟨hf, ?_⟩
        rw [← hm.2]
        simp
      · intro m hm
        simp at hm
  | considerEnq vals =>
    match le with
    | none => simp [stepF] at h
    | some (false, m) => simp [stepF] at h
    | some (true, m) =>
      obtain ⟨hnf, hm⟩ := hslots m rfl
      have hlt : q.amount < q.capacity := by have := hWF.1; omega
      have hcap : 0 < q.capacity := by omega
      by_cases hv : vals.length ≤ m
      · simp only [stepF, if_pos hv] at h
        rw [Option.map_eq_some'] at h
        obtain ⟨w, hw, heq⟩ := h
        obtain ⟨-, heq2⟩ := Prod.mk.injEq .. |>.mp heq
        cases heq2
        rw [write_to_some hcap] at hw
        obtain rfl := Option.some.inj hw
        have hle2 : q.amount + vals.length ≤ q.capacity := by
          have := freeLen_le q hWF
          omega
        obtain ⟨q1, henq, hWF1, -, -, -, -⟩ := enqueueList_of_le vals q hWF hle2
        have hfill := enqueueList_fill vals q ((q.read + q.amount) % q.capacity) hWF hle2
          (fun j hj => region_step hWF hnf (by omega))
        rw [henq] at hfill
        obtain ⟨-, hq1⟩ := Prod.mk.injEq .. |>.mp (Option.some.inj hfill)
        rw [hq1] at hWF1
        exact InvF_none_of_WF hWF1
      · simp [stepF, if_neg hv] at h
  | exposeItems =>
    simp only [stepF] at h
    rw [Option.map_eq_some'] at h
    obtain ⟨r, hr, heq⟩ := h
    obtain ⟨-, heq2⟩ := Prod.mk.injEq .. |>.mp heq
    cases heq2
    by_cases hf : q.amount = 0
    · rw [expose_items_empty hf] at hr
      obtain rfl : (none : Option (List T)) = r := Option.some.inj hr
      exact InvF_none_of_WF hWF
    · obtain ⟨l2, hexp, -, hlen⟩ := expose_items_not_empty hWF hf
      rw [hexp] at hr
      obtain rfl := Option.some.inj hr
      refine ⟨hWF, ?_, ?_⟩
      · intro m hm
        simp at hm
      · intro m hm
        simp only [Option.some.injEq, Prod.mk.injEq] at hm
        exact ⟨hf, by rw [← hm.2, hlen]⟩
  | considerDeq n =>
    match le with
    | none => simp [stepF] at h
    | some (true, m) => simp [stepF] at h
    | some (false, m) =>
      obtain ⟨hne, hm⟩ := hitems m rfl
      have hcap : 0 < q.capacity := by have := hWF.1; omega
      by_cases hv : n ≤ m
      · simp only [stepF, if_pos hv] at h
        rw [Option.map_eq_some'] at h
        obtain ⟨q3, hq3, heq⟩ := h
        obtain ⟨-, heq2⟩ := Prod.mk.injEq .. |>.mp heq
        cases heq2
        rw [consider_dequeued_eq hcap] at hq3
        obtain rfl := Option.some.inj hq3
        have hk : n ≤ q.amount := by
          have := readLen_le_amount q
          omega
        exact InvF_none_of_WF (advance_read hWF hcap hk).2
      · simp [stepF, if_neg hv] at h
  | bulkEnq buf =>
    simp only [stepF] at h
    rw [Option.map_eq_some'] at h
    obtain ⟨p, hp, heq⟩ := h
    obtain ⟨-, heq2⟩ := Prod.mk.injEq .. |>.mp heq
    cases heq2
    obtain ⟨k, q3, hbe, hWF3, -, -, -, -⟩ := bulk_enqueue_cases hWF buf
    rw [hbe] at hp
    obtain rfl : (k, q3) = p := Option.some.inj hp
    exact InvF_none_of_WF hWF3
  | bulkDeq buf =>
    simp only [stepF] at h
    rw [Option.map_eq_some'] at h
    obtain ⟨p, hp, heq⟩ := h
    obtain ⟨-, heq2⟩ := Prod.mk.injEq .. |>.mp heq
    cases heq2
    obtain ⟨k, b, q3, hbd, hWF3, -, -, -, -⟩ := bulk_dequeue_cases hWF buf
    rw [hbd] at hp
    obtain rfl : (k, b, q3) = p := Option.some.inj hp
    exact InvF_none_of_WF hWF3

lemma runF_preserves : ∀ (ops : List (QOp T)) (q : Fixed T) (le : LastExp)
    (tr : List (QObs T)) (q2 : Fixed T) (le2 : LastExp), InvF q le →
    runF q le ops = some (tr, q2, le2) → InvF q2 le2 := by
  intro ops
  induction ops with
  | nil =>
    intro q le tr q2 le2 hInv h
    simp only [runF, Option.some.injEq, Prod.mk.injEq] at h
    rw [← h.2.1, ← h.2.2]
    exact hInv
  | cons op rest ih =>
    intro q le tr q2 le2 hInv h
    rw [runF] at h
    cases hstep : stepF q le op with
    | none => rw [hstep] at h; simp at h
    | some p =>
      obtain ⟨o1, q1, le1⟩ := p
      rw [hstep] at h
      rw [Option.map_eq_some'] at h
      obtain ⟨p2, hp2, heq⟩ := h
      obtain ⟨tr2, q2b, le2b⟩ := p2
      obtain ⟨-, heq2⟩ := Prod.mk.injEq .. |>.mp heq
      cases heq2
      exact ih q1 le1 tr2 _ _ (stepF_preserves hInv hstep) hp2

end Fixed

namespace Fixed

variable {T : Type}

lemma length_enqueue {q : Fixed T} {i : T} {p : Option T × Fixed T}
    (h : q.enqueue i = some p) : p.2.data.length = q.data.length := by
  rw [enqueue] at h
  split at h
  · cases Option.some.inj h
    rfl
  · rw [Option.map_eq_some'] at h
    obtain ⟨w, -, heq⟩ := h
    cases heq
    simp

lemma length_dequeue {q : Fixed T} {p : Option T × Fixed T}
    (h : q.dequeue = some p) : p.2.data.length = q.data.length := by
  rw [dequeue] at h
  split at h
  · cases Option.some.inj h
    rfl
  · split at h
    · cases Option.some.inj h
      rfl
    · exact absurd h (by simp)

lemma length_consider_dequeued {q : Fixed T} {n : Nat} {q2 : Fixed T}
    (h : q.consider_dequeued n = some q2) : q2.data.length = q.data.length := by
  rw [consider_dequeued, Option.map_eq_some'] at h
  obtain ⟨r, -, heq⟩ := h
  cases heq
  rfl

lemma length_bulk_enqueue {q : Fixed T} {buf : List T} {p : Nat × Fixed T}
    (h : q.bulk_enqueue buf = some p) : p.2.data.length = q.data.length := by
  rw [bulk_enqueue.eq_def] at h
  split at h
  · exact absurd h (by simp)
  · cases Option.some.inj h
    rfl
  · rw [Option.map_eq_some'] at h
    obtain ⟨w, -, heq⟩ := h
    cases heq
    simp [consider_enqueued, length_writeRange]

lemma length_bulk_dequeue {q : Fixed T} {buf : List T} {p : Nat × List T × Fixed T}
    (h : q.bulk_dequeue buf = some p) : p.2.2.data.length = q.data.length := by
  rw [bulk_dequeue.eq_def] at h
  split at h
  · exact absurd h (by simp)
  · cases Option.some.inj h
    rfl
  · rw [Option.map_eq_some'] at h
    obtain ⟨q3, hq3, heq⟩ := h
    cases heq
    exact length_consider_dequeued hq3

lemma length_stepF {q : Fixed T} {le : LastExp} {op : QOp T} {o : QObs T} {q2 : Fixed T}
    {le2 : LastExp} (h : stepF q le op = some (o, q2, le2)) :
    q2.data.length = q.data.length := by
  cases op with
  | len =>
    simp only [stepF, Option.some.injEq, Prod.mk.injEq] at h
    rw [← h.2.1]
  | enq i =>
    simp only [stepF, Option.map_eq_some'] at h
    obtain ⟨p, hp, heq⟩ := h
    obtain ⟨-, heq2⟩ := Prod.mk.injEq .. |>.mp heq
    cases heq2
    exact length_enqueue hp
  | deq =>
    simp only [stepF, Option.map_eq_some'] at h
    obtain ⟨p, hp, heq⟩ := h
    obtain ⟨-, heq2⟩ := Prod.mk.injEq .. |>.mp heq
    cases heq2
    exact length_dequeue hp
  | exposeSlots =>
    simp only [stepF, Option.map_eq_some'] at h
    obtain ⟨r, -, heq⟩ := h
    obtain ⟨-, heq2⟩ := Prod.mk.injEq .. |>.mp heq
    cases heq2
    rfl
  | considerEnq vals =>
    match le with
    | none => simp [stepF] at h
    | some (false, m) => simp [stepF] at h
    | some (true, m) =>
      by_cases hv : vals.length ≤ m
      · simp only [stepF, if_pos hv, Option.map_eq_some'] at h
        obtain ⟨w, -, heq⟩ := h
        obtain ⟨-, heq2⟩ := Prod.mk.injEq .. |>.mp heq
        cases heq2
        simp [consider_enqueued, length_writeRange]
      · simp [stepF, if_neg hv] at h
  | exposeItems =>
    simp only [stepF, Option.map_eq_some'] at h
    obtain ⟨r, -, heq⟩ := h
    obtain ⟨-, heq2⟩ := Prod.mk.injEq .. |>.mp heq
    cases heq2
    rfl
  | considerDeq n =>
    match le with
    | none => simp [stepF] at h
    | some (true, m) => simp [stepF] at h
    | some (false, m) =>
      by_cases hv : n ≤ m
      · simp only [stepF, if_pos hv, Option.map_eq_some'] at h
        obtain ⟨q3, hq3, heq⟩ := h
        obtain ⟨-, heq2⟩ := Prod.mk.injEq .. |>.mp heq
        cases heq2
        exact length_consider_dequeued hq3
      · simp [stepF, if_neg hv] at h
  | bulkEnq buf =>
    simp only [stepF, Option.map_eq_some'] at h
    obtain ⟨p, hp, heq⟩ := h
    obtain ⟨-, heq2⟩ := Prod.mk.injEq .. |>.mp heq
    cases heq2
    exact length_bulk_enqueue hp
  | bulkDeq buf =>
    simp only [stepF, Option.map_eq_some'] at h
    obtain ⟨p, hp, heq⟩ := h
    obtain ⟨-, heq2⟩ := Prod.mk.injEq .. |>.mp heq
    cases heq2
    exact length_bulk_dequeue hp

end Fixed

namespace Static

variable {T : Type} {N : Nat}

lemma toFixed_ofFixed (q : Fixed T) : (ofFixed (T := T) N q).toFixed = q := rfl

lemma len_toFixed (s : Static T N) : Static.len s = Fixed.len s.toFixed := rfl

lemma write_to_toFixed {s : Static T N} (hlen : s.data.length = N) :
    Static.write_to s = Fixed.write_to s.toFixed := by
  rw [Static.write_to, Fixed.write_to]
  show rustMod (s.read + s.amount) N = rustMod (s.read + s.amount) s.data.length
  rw [hlen]

lemma proj_amount (s : Static T N) : s.toFixed.amount = s.amount := rfl

lemma proj_read (s : Static T N) : s.toFixed.read = s.read := rfl

lemma proj_data (s : Static T N) : s.toFixed.data = s.data := rfl

lemma proj_cap {s : Static T N} (hlen : s.data.length = N) : s.toFixed.capacity = N := hlen

lemma contiguous_toFixed {s : Static T N} (hlen : s.data.length = N) :
    Fixed.is_data_contiguous s.toFixed = Static.is_data_contiguous s := by
  rw [Fixed.is_data_contiguous, Static.is_data_contiguous, proj_cap hlen, proj_read, proj_amount]

lemma readable_slice_toFixed {s : Static T N} (hlen : s.data.length = N) :
    Static.readable_slice s = Fixed.readable_slice s.toFixed := by
  rw [Static.readable_slice, Fixed.readable_slice, write_to_toFixed hlen,
    contiguous_toFixed hlen]
  rfl

lemma writeable_slice_toFixed {s : Static T N} (hlen : s.data.length = N) :
    Static.writeable_slice s = Fixed.writeable_slice s.toFixed := by
  rw [Static.writeable_slice, Fixed.writeable_slice, write_to_toFixed hlen]
  congr 1
  funext w
  rw [contiguous_toFixed hlen,
    List.take_of_length_le (le_of_eq hlen)]
  rfl

lemma enqueue_toFixed {s : Static T N} (hlen : s.data.length = N) (i : T) :
    Static.enqueue s i
      = (Fixed.enqueue s.toFixed i).map (fun p => (p.1, ofFixed N p.2)) := by
  rw [Static.enqueue, Fixed.enqueue]
  simp only [proj_amount, proj_cap hlen]
  by_cases hf : s.amount = N
  · rw [if_pos hf, if_pos hf]
    rfl
  · rw [if_neg hf, if_neg hf, ← write_to_toFixed hlen, Option.map_map]
    cases Static.write_to s <;> rfl

lemma expose_slots_toFixed {s : Static T N} (hlen : s.data.length = N) :
    Static.expose_slots s = Fixed.expose_slots s.toFixed := by
  rw [Static.expose_slots, Fixed.expose_slots]
  simp only [proj_amount, proj_cap hlen]
  rw [writeable_slice_toFixed hlen]

lemma consider_enqueued_toFixed (s : Static T N) (n : Nat) :
    Static.consider_enqueued s n = ofFixed N (Fixed.consider_enqueued s.toFixed n) := rfl

lemma dequeue_toFixed {s : Static T N} (hlen : s.data.length = N) :
    Static.dequeue s
      = (Fixed.dequeue s.toFixed).map (fun p => (p.1, ofFixed N p.2)) := by
  rw [Static.dequeue, Fixed.dequeue]
  simp only [proj_amount, proj_cap hlen, proj_read, proj_data]
  by_cases hf : s.amount = 0
  · rw [if_pos hf, if_pos hf]
    rfl
  · rw [if_neg hf, if_neg hf]
    cases rustMod (s.read + 1) N with
    | none => cases s.data.getD s.read none <;> rfl
    | some r => cases s.data.getD s.read none <;> rfl

lemma expose_items_toFixed {s : Static T N} (hlen : s.data.length = N) :
    Static.expose_items s = Fixed.expose_items s.toFixed := by
  rw [Static.expose_items, Fixed.expose_items, readable_slice_toFixed hlen]
  rfl

lemma consider_dequeued_toFixed {s : Static T N} (hlen : s.data.length = N) (n : Nat) :
    Static.consider_dequeued s n
      = (Fixed.consider_dequeued s.toFixed n).map (ofFixed N) := by
  rw [Static.consider_dequeued, Fixed.consider_dequeued]
  simp only [proj_amount, proj_cap hlen, proj_read]
  rw [Option.map_map]
  rfl

lemma bulk_enqueue_toFixed {s : Static T N} (hlen : s.data.length = N) (buf : List T) :
    Static.bulk_enqueue s buf
      = (Fixed.bulk_enqueue s.toFixed buf).map (fun p => (p.1, ofFixed N p.2)) := by
  rw [Static.bulk_enqueue.eq_def, Fixed.bulk_enqueue.eq_def, expose_slots_toFixed hlen]
  cases Fixed.expose_slots s.toFixed with
  | none => rfl
  | some r =>
    cases r with
    | none => rfl
    | some slots =>
      show (Static.write_to s).map _ = ((Fixed.write_to s.toFixed).map _).map _
      rw [write_to_toFixed hlen, Option.map_map]
      cases Fixed.write_to s.toFixed <;> rfl

lemma bulk_dequeue_toFixed {s : Static T N} (hlen : s.data.length = N) (buf : List T) :
    Static.bulk_dequeue s buf
      = (Fixed.bulk_dequeue s.toFixed buf).map (fun p => (p.1, p.2.1, ofFixed N p.2.2)) := by
  rw [Static.bulk_dequeue.eq_def, Fixed.bulk_dequeue.eq_def, expose_items_toFixed hlen]
  cases Fixed.expose_items s.toFixed with
  | none => rfl
  | some r =>
    cases r with
    | none => rfl
    | some slots =>
      show (Static.consider_dequeued s _).map _
        = ((Fixed.consider_dequeued s.toFixed _).map _).map _
      rw [consider_dequeued_toFixed hlen, Option.map_map, Option.map_map]
      cases Fixed.consider_dequeued s.toFixed (min slots.length buf.length) <;> rfl

end Static

namespace Static

variable {T : Type} {N : Nat}

lemma new_wf : Static.WF (Static.new T N) := ⟨by simp [Static.new], Fixed.WF_new N⟩

lemma stepS_toFixed {s : Static T N} (hlen : s.data.length = N) (le : LastExp) (op : QOp T) :
    Static.stepS s le op = (Fixed.stepF s.toFixed le op).map
      (fun p => (p.1, ofFixed N p.2.1, p.2.2)) := by
  cases op with
  | len => rfl
  | enq i =>
    show (Static.enqueue s i).map _ = ((Fixed.enqueue s.toFixed i).map _).map _
    rw [enqueue_toFixed hlen, Option.map_map, Option.map_map]
    rfl
  | deq =>
    show (Static.dequeue s).map _ = ((Fixed.dequeue s.toFixed).map _).map _
    rw [dequeue_toFixed hlen, Option.map_map, Option.map_map]
    rfl
  | exposeSlots =>
    show (Static.expose_slots s).map _ = ((Fixed.expose_slots s.toFixed).map _).map _
    rw [expose_slots_toFixed hlen, Option.map_map]
    apply congrFun
    apply congrArg
    funext r
    cases r <;> rfl
  | considerEnq vals =>
    match le with
    | none => rfl
    | some (false, m) => rfl
    | some (true, m) =>
      by_cases hv : vals.length ≤ m
      · show (if vals.length ≤ m then (Static.write_to s).map _ else none)
          = ((if vals.length ≤ m then (Fixed.write_to s.toFixed).map _ else none)).map _
        rw [if_pos hv, if_pos hv, write_to_toFixed hlen, Option.map_map]
        cases Fixed.write_to s.toFixed <;> rfl
      · show (if vals.length ≤ m then (Static.write_to s).map _ else none)
          = ((if vals.length ≤ m then (Fixed.write_to s.toFixed).map _ else none)).map _
        rw [if_neg hv, if_neg hv]
        rfl
  | exposeItems =>
    show (Static.expose_items s).map _ = ((Fixed.expose_items s.toFixed).map _).map _
    rw [expose_items_toFixed hlen, Option.map_map]
    apply congrFun
    apply congrArg
    funext r
    cases r <;> rfl
  | considerDeq n =>
    match le with
    | none => rfl
    | some (true, m) => rfl
    | some (false, m) =>
      by_cases hv : n ≤ m
      · show (if n ≤ m then (Static.consider_dequeued s n).map _ else none)
          = ((if n ≤ m then (Fixed.consider_dequeued s.toFixed n).map _ else none)).map _
        rw [if_pos hv, if_pos hv, consider_dequeued_toFixed hlen, Option.map_map,
          Option.map_map]
        cases Fixed.consider_dequeued s.toFixed n <;> rfl
      · show (if n ≤ m then (Static.consider_dequeued s n).map _ else none)
          = ((if n ≤ m then (Fixed.consider_dequeued s.toFixed n).map _ else none)).map _
        rw [if_neg hv, if_neg hv]
        rfl
  | bulkEnq buf =>
    show (Static.bulk_enqueue s buf).map _ = ((Fixed.bulk_enqueue s.toFixed buf).map _).map _
    rw [bulk_enqueue_toFixed hlen, Option.map_map, Option.map_map]
    rfl
  | bulkDeq buf =>
    show (Static.bulk_dequeue s buf).map _ = ((Fixed.bulk_dequeue s.toFixed buf).map _).map _
    rw [bulk_dequeue_toFixed hlen, Option.map_map, Option.map_map]
    rfl

lemma runS_toFixed : ∀ (ops : List (QOp T)) (s : Static T N) (le : LastExp),
    s.data.length = N →
    Static.runS s le ops = (Fixed.runF s.toFixed le ops).map
      (fun p => (p.1, ofFixed N p.2.1, p.2.2)) := by
  intro ops
  induction ops with
  | nil =>
    intro s le hlen
    rfl
  | cons op rest ih =>
    intro s le hlen
    rw [Static.runS, Fixed.runF, stepS_toFixed hlen]
    cases hstep : Fixed.stepF s.toFixed le op with
    | none => rfl
    | some p =>
      obtain ⟨o, q1, le1⟩ := p
      show (Static.runS (ofFixed N q1) le1 rest).map _
        = ((Fixed.runF q1 le1 rest).map _).map _
      rw [ih (ofFixed N q1) le1 (by
        show q1.data.length = N
        rw [Fixed.length_stepF hstep]
        exact hlen), toFixed_ofFixed, Option.map_map, Option.map_map]
      cases Fixed.runF q1 le1 rest <;> rfl

lemma enqueueList_toFixed : ∀ (xs : List T) (s : Static T N), s.data.length = N →
    Static.enqueueList s xs = (Fixed.enqueueList s.toFixed xs).map
      (fun p => (p.1, ofFixed N p.2)) := by
  intro xs
  induction xs with
  | nil =>
    intro s hlen
    rfl
  | cons x rest ih =>
    intro s hlen
    rw [Static.enqueueList, Fixed.enqueueList, enqueue_toFixed hlen]
    cases henq : Fixed.enqueue s.toFixed x with
    | none => rfl
    | some p =>
      obtain ⟨r, q1⟩ := p
      show (Static.enqueueList (ofFixed N q1) rest).map _
        = ((Fixed.enqueueList q1 rest).map _).map _
      rw [ih (ofFixed N q1) (by
        show q1.data.length = N
        rw [show q1.data.length = (r, q1).2.data.length from rfl, Fixed.length_enqueue henq]
        exact hlen), toFixed_ofFixed, Option.map_map, Option.map_map]
      cases Fixed.enqueueList q1 rest <;> rfl

lemma dequeueN_toFixed : ∀ (n : Nat) (s : Static T N), s.data.length = N →
    Static.dequeueN s n = (Fixed.dequeueN s.toFixed n).map
      (fun p => (p.1, ofFixed N p.2)) := by
  intro n
  induction n with
  | zero =>
    intro s hlen
    rfl
  | succ m ih =>
    intro s hlen
    rw [Static.dequeueN, Fixed.dequeueN, dequeue_toFixed hlen]
    cases hdq : Fixed.dequeue s.toFixed with
    | none => rfl
    | some p =>
      obtain ⟨r, q1⟩ := p
      show (Static.dequeueN (ofFixed N q1) m).map _
        = ((Fixed.dequeueN q1 m).map _).map _
      rw [ih (ofFixed N q1) (by
        show q1.data.length = N
        rw [show q1.data.length = (r, q1).2.data.length from rfl, Fixed.length_dequeue hdq]
        exact hlen), toFixed_ofFixed, Option.map_map, Option.map_map]
      cases Fixed.dequeueN q1 m <;> rfl

end Static

namespace Fixed

variable {T : Type}

lemma length_enqueueList : ∀ (xs : List T) (q : Fixed T) (p : List (Option T) × Fixed T),
    enqueueList q xs = some p → p.2.data.length = q.data.length := by
  intro xs
  induction xs with
  | nil =>
    intro q p h
    cases Option.some.inj h
    rfl
  | cons x rest ih =>
    intro q p h
    rw [enqueueList] at h
    cases henq : q.enqueue x with
    | none => rw [henq] at h; simp at h
    | some p1 =>
      obtain ⟨r, q1⟩ := p1
      rw [henq] at h
      rw [Option.map_eq_some'] at h
      obtain ⟨p2, hp2, heq⟩ := h
      cases heq
      rw [show (r :: p2.1, p2.2).2 = p2.2 from rfl, ih q1 p2 hp2]
      exact length_enqueue henq

lemma length_runF : ∀ (ops : List (QOp T)) (q : Fixed T) (le : LastExp)
    (p : List (QObs T) × Fixed T × LastExp),
    runF q le ops = some p → p.2.1.data.length = q.data.length := by
  intro ops
  induction ops with
  | nil =>
    intro q le p h
    cases Option.some.inj h
    rfl
  | cons op rest ih =>
    intro q le p h
    rw [runF] at h
    cases hstep : stepF q le op with
    | none => rw [hstep] at h; simp at h
    | some p1 =>
      obtain ⟨o, q1, le1⟩ := p1
      rw [hstep] at h
      rw [Option.map_eq_some'] at h
      obtain ⟨p2, hp2, heq⟩ := h
      cases heq
      rw [show (o :: p2.1, p2.2).2 = p2.2 from rfl, ih q1 le1 p2 hp2]
      exact length_stepF hstep

end Fixed

/-- C1: FIFO order — for every queue (heap-backed `Fixed` or compile-time
`Static`) in a well-formed empty state, and every list of items `xs` that fits
the capacity, the enqueues of `xs` all succeed (each returns nothing) and the
same number of dequeues returns exactly the enqueued items, in enqueue order. -/
theorem C1_fifo_order {T : Type} {N : Nat} (q : Fixed T) (s : Static T N)
    (hq : Fixed.WF q) (hq0 : q.amount = 0) (hs : Static.WF s) (hs0 : s.amount = 0)
    (xs : List T) (hxq : xs.length ≤ q.capacity) (hxs : xs.length ≤ N) :
    (∃ q1 q2 : Fixed T, Fixed.enqueueList q xs = some (xs.map (fun _ => none), q1) ∧
      Fixed.dequeueN q1 xs.length = some (xs.map some, q2)) ∧
    (∃ s1 s2 : Static T N, Static.enqueueList s xs = some (xs.map (fun _ => none), s1) ∧
      Static.dequeueN s1 xs.length = some (xs.map some, s2)) := by
  have main : ∀ (p : Fixed T), Fixed.WF p → p.amount = 0 → xs.length ≤ p.capacity →
      ∃ q1 q2 : Fixed T, Fixed.enqueueList p xs = some (xs.map (fun _ => none), q1) ∧
        Fixed.dequeueN q1 xs.length = some (xs.map some, q2) := by
    intro p hWF h0 hlen
    obtain ⟨q1, henq, hWF1, hcap1, -, hamt1, hitems1⟩ :=
      Fixed.enqueueList_of_le xs p hWF (by omega)
    have hempty : Fixed.itemsOpt p = [] := by
      rw [Fixed.itemsOpt, h0]
      rfl
    rw [hempty, List.nil_append] at hitems1
    obtain ⟨q2, hdeq, -, -, -⟩ := Fixed.dequeueN_spec xs.length q1 hWF1 (by omega)
    refine ⟨q1, q2, henq, ?_⟩
    rw [hitems1, List.take_of_length_le (by simp)] at hdeq
    exact hdeq
  refine ⟨main q hq hq0 hxq, ?_⟩
  obtain ⟨q1, q2, h1, h2⟩ := main s.toFixed hs.2 hs0 (by
    show xs.length ≤ s.data.length
    rw [hs.1]
    exact hxs)
  refine ⟨Static.ofFixed N q1, Static.ofFixed N q2, ?_, ?_⟩
  · rw [Static.enqueueList_toFixed xs s hs.1, h1]
    rfl
  · rw [Static.dequeueN_toFixed xs.length (Static.ofFixed N q1) (by
      show q1.data.length = N
      rw [Fixed.length_enqueueList xs s.toFixed _ h1]
      exact hs.1), Static.toFixed_ofFixed, h2]
    rfl

/-- Witness for C1: capacity 2, items [5, 6], on both variants. -/
theorem C1_fifo_order_witness :
    (∃ q1 q2 : Fixed Nat, Fixed.enqueueList (Fixed.new Nat 2) [5, 6]
        = some ([5, 6].map (fun _ => none), q1) ∧
      Fixed.dequeueN q1 [5, 6].length = some ([5, 6].map some, q2)) ∧
    (∃ s1 s2 : Static Nat 2, Static.enqueueList (Static.new Nat 2) [5, 6]
        = some ([5, 6].map (fun _ => none), s1) ∧
      Static.dequeueN s1 [5, 6].length = some ([5, 6].map some, s2)) :=
  C1_fifo_order (Fixed.new Nat 2) (Static.new Nat 2) (Fixed.WF_new 2) rfl
    Static.new_wf rfl [5, 6] (by decide) (by decide)

/-- C2: enqueue contract — on a full queue (`amount == capacity` for `Fixed`,
`amount == N` for `Static`) the item is returned and the state is left
unmodified; otherwise the item is written into slot `(read + amount) mod
capacity`, `amount` is incremented by one and nothing is returned; and after
filling an empty queue of capacity C with C items, a further enqueue returns
the offered item and `len()` stays C. -/
theorem C2_enqueue_contract {T : Type} {N : Nat} (q : Fixed T) (s : Static T N) (i : T)
    (hq : Fixed.WF q) (hs : Static.WF s) :
    (q.amount = q.capacity → q.enqueue i = some (some i, q)) ∧
    (q.amount ≠ q.capacity → q.enqueue i = some (none,
      ⟨q.data.set ((q.read + q.amount) % q.capacity) (some i), q.read, q.amount + 1⟩)) ∧
    (s.amount = N → Static.enqueue s i = some (some i, s)) ∧
    (s.amount ≠ N → Static.enqueue s i = some (none,
      ⟨s.data.set ((s.read + s.amount) % N) (some i), s.read, s.amount + 1⟩)) ∧
    (∀ xs : List T, q.amount = 0 → xs.length = q.capacity →
      ∃ q1 : Fixed T, Fixed.enqueueList q xs = some (xs.map (fun _ => none), q1) ∧
        q1.enqueue i = some (some i, q1) ∧ q1.len = q.capacity) := by
  refine ⟨fun hf => Fixed.enqueue_full hf i, fun hnf => ?_, fun hf => ?_, fun hnf => ?_, ?_⟩
  · have hlt : q.amount < q.capacity := by have := hq.1; omega
    exact Fixed.enqueue_not_full hlt i
  · rw [Static.enqueue_toFixed hs.1 i, Fixed.enqueue_full (show s.toFixed.amount
      = s.toFixed.capacity from by rw [Static.proj_amount, Static.proj_cap hs.1]; exact hf) i]
    rfl
  · have hlt : s.toFixed.amount < s.toFixed.capacity := by
      have h1 := hs.2.1
      have h2 : s.toFixed.capacity = N := hs.1
      have h3 : s.toFixed.amount = s.amount := rfl
      omega
    rw [Static.enqueue_toFixed hs.1 i, Fixed.enqueue_not_full hlt i]
    show some ((none : Option T),
      (⟨s.data.set ((s.read + s.amount) % s.toFixed.capacity) (some i),
        s.read, s.amount + 1⟩ : Static T N)) = _
    rw [Static.proj_cap hs.1]
  · intro xs h0 hlen
    obtain ⟨q1, henq, hWF1, hcap1, -, hamt1, -⟩ := Fixed.enqueueList_of_le xs q hq (by omega)
    have hfull : q1.amount = q1.capacity := by
      rw [hamt1, hcap1]
      omega
    refine ⟨q1, henq, Fixed.enqueue_full hfull i, ?_⟩
    rw [Fixed.len, hamt1]
    omega

/-- Witness for C2: capacity 1 on both variants, item 7. -/
theorem C2_enqueue_contract_witness :
    ((Fixed.new Nat 1).amount = (Fixed.new Nat 1).capacity →
      (Fixed.new Nat 1).enqueue 7 = some (some 7, Fixed.new Nat 1)) ∧
    ((Fixed.new Nat 1).amount ≠ (Fixed.new Nat 1).capacity →
      (Fixed.new Nat 1).enqueue 7 = some (none,
        ⟨(Fixed.new Nat 1).data.set
          (((Fixed.new Nat 1).read + (Fixed.new Nat 1).amount) % (Fixed.new Nat 1).capacity)
          (some 7), (Fixed.new Nat 1).read, (Fixed.new Nat 1).amount + 1⟩)) ∧
    ((Static.new Nat 1).amount = 1 →
      Static.enqueue (Static.new Nat 1) 7 = some (some 7, Static.new Nat 1)) ∧
    ((Static.new Nat 1).amount ≠ 1 →
      Static.enqueue (Static.new Nat 1) 7 = some (none,
        ⟨(Static.new Nat 1).data.set
          (((Static.new Nat 1).read + (Static.new Nat 1).amount) % 1) (some 7),
          (Static.new Nat 1).read, (Static.new Nat 1).amount + 1⟩)) ∧
    (∀ xs : List Nat, (Fixed.new Nat 1).amount = 0 → xs.length = (Fixed.new Nat 1).capacity →
      ∃ q1 : Fixed Nat, Fixed.enqueueList (Fixed.new Nat 1) xs
          = some (xs.map (fun _ => none), q1) ∧
        q1.enqueue 7 = some (some 7, q1) ∧ q1.len = (Fixed.new Nat 1).capacity) :=
  C2_enqueue_contract (Fixed.new Nat 1) (Static.new Nat 1) 7 (by decide) (by decide)

/-- C3: dequeue contract — `dequeue()` returns nothing if and only if the queue
is empty, leaving the state unchanged in that case; otherwise it returns the
item stored at index `read`, advances `read` to `(read + 1) mod capacity` and
decrements `amount` by one (both variants). -/
theorem C3_dequeue_contract {T : Type} {N : Nat} (q : Fixed T) (s : Static T N)
    (hq : Fixed.WF q) (hs : Static.WF s) :
    ((q.dequeue = some (none, q)) ↔ q.amount = 0) ∧
    (q.amount ≠ 0 → ∃ x, q.data.getD q.read none = some x ∧
      q.dequeue = some (some x, ⟨q.data, (q.read + 1) % q.capacity, q.amount - 1⟩)) ∧
    ((Static.dequeue s = some (none, s)) ↔ s.amount = 0) ∧
    (s.amount ≠ 0 → ∃ x, s.data.getD s.read none = some x ∧
      Static.dequeue s = some (some x, ⟨s.data, (s.read + 1) % N, s.amount - 1⟩)) := by
  refine ⟨⟨?_, Fixed.dequeue_empty⟩, ?_, ⟨?_, ?_⟩, ?_⟩
  · intro hdq
    by_contra hne
    obtain ⟨x, -, hdq2⟩ := Fixed.dequeue_not_empty hq hne
    rw [hdq2] at hdq
    have := (Prod.mk.injEq .. |>.mp (Option.some.inj hdq)).1
    exact Option.noConfusion this
  · intro hne
    obtain ⟨x, hx, hdq2⟩ := Fixed.dequeue_not_empty hq hne
    exact ⟨x, hx, hdq2⟩
  · intro hdq
    by_contra hne
    obtain ⟨x, -, hdq2⟩ := Fixed.dequeue_not_empty hs.2 hne
    rw [Static.dequeue_toFixed hs.1, hdq2] at hdq
    have := (Prod.mk.injEq .. |>.mp (Option.some.inj hdq)).1
    exact Option.noConfusion this
  · intro h0
    rw [Static.dequeue_toFixed hs.1, Fixed.dequeue_empty h0]
    rfl
  · intro hne
    obtain ⟨x, hx, hdq2⟩ := Fixed.dequeue_not_empty hs.2 hne
    refine ⟨x, hx, ?_⟩
    rw [Static.dequeue_toFixed hs.1, hdq2]
    show some (some x,
      (⟨s.data, (s.read + 1) % s.toFixed.capacity, s.amount - 1⟩ : Static T N)) = _
    rw [Static.proj_cap hs.1]

/-- Witness for C3: one-item queues on both variants. -/
theorem C3_dequeue_contract_witness :
    ((Fixed.dequeue ⟨[some 3], 0, 1⟩ = some (none, (⟨[some 3], 0, 1⟩ : Fixed Nat)))
      ↔ (⟨[some 3], 0, 1⟩ : Fixed Nat).amount = 0) ∧
    ((⟨[some 3], 0, 1⟩ : Fixed Nat).amount ≠ 0 →
      ∃ x, ([some 3] : List (Slot Nat)).getD 0 none = some x ∧
        Fixed.dequeue ⟨[some 3], 0, 1⟩ = some (some x,
          ⟨[some 3], (0 + 1) % (⟨[some 3], 0, 1⟩ : Fixed Nat).capacity, 1 - 1⟩)) ∧
    ((Static.dequeue ⟨[some 4], 0, 1⟩ = some (none, (⟨[some 4], 0, 1⟩ : Static Nat 1)))
      ↔ (⟨[some 4], 0, 1⟩ : Static Nat 1).amount = 0) ∧
    ((⟨[some 4], 0, 1⟩ : Static Nat 1).amount ≠ 0 →
      ∃ x, ([some 4] : List (Slot Nat)).getD 0 none = some x ∧
        Static.dequeue (⟨[some 4], 0, 1⟩ : Static Nat 1)
          = some (some x, (⟨[some 4], (0 + 1) % 1, 1 - 1⟩ : Static Nat 1))) :=
  C3_dequeue_contract (⟨[some 3], 0, 1⟩ : Fixed Nat) (⟨[some 4], 0, 1⟩ : Static Nat 1)
    (by decide) (by decide)

/-- C4 counterexample: running the claimed capacity-4 scenario, the final
`bulk_dequeue` into a buffer of size 4 returns count 3 with the buffer holding
[21, 196, 233] followed by its untouched last element — not count 4 with
buffer [21, 196, 233, 9]: after the single dequeue the live data wraps, so
`expose_items` exposes only the contiguous run of 3 items. -/
theorem C4_counterexample :
    Fixed.enqueueList (Fixed.new Nat 4) [7, 21, 196, 233]
      = some ([none, none, none, none],
          ⟨[some 7, some 21, some 196, some 233], 0, 4⟩) ∧
    Fixed.enqueue (⟨[some 7, some 21, some 196, some 233], 0, 4⟩ : Fixed Nat) 5
      = some (some 5, ⟨[some 7, some 21, some 196, some 233], 0, 4⟩) ∧
    Fixed.dequeue (⟨[some 7, some 21, some 196, some 233], 0, 4⟩ : Fixed Nat)
      = some (some 7, ⟨[some 7, some 21, some 196, some 233], 1, 3⟩) ∧
    Fixed.bulk_enqueue (⟨[some 7, some 21, some 196, some 233], 1, 3⟩ : Fixed Nat) [9]
      = some (1, ⟨[some 9, some 21, some 196, some 233], 1, 4⟩) ∧
    Fixed.bulk_dequeue
        (⟨[some 9, some 21, some 196, some 233], 1, 4⟩ : Fixed Nat) [0, 0, 0, 0]
      = some (3, [21, 196, 233, 0], ⟨[some 9, some 21, some 196, some 233], 0, 1⟩) ∧
    Fixed.bulk_dequeue
        (⟨[some 9, some 21, some 196, some 233], 1, 4⟩ : Fixed Nat) [0, 0, 0, 0]
      ≠ some (4, [21, 196, 233, 9], ⟨[some 9, some 21, some 196, some 233], 0, 0⟩) :=
  ⟨rfl, rfl, rfl, rfl, rfl, by decide⟩

/-- C4 (amended): the capacity-4 differential scenario — the four enqueues are
accepted and `len() == 4`; a fifth `enqueue(5)` returns the item 5 with
`len()` still 4; `dequeue()` returns 7 with `len() == 3`; `bulk_enqueue([9])`
returns count 1 with `len() == 4`; `bulk_dequeue` with a destination buffer of
size 4 returns count 3 and fills the first three buffer slots with
[21, 196, 233], leaving `len() == 1`; a second `bulk_dequeue` returns count 1
and yields the item 9, leaving `len() == 0`. -/
theorem C4_differential_scenario :
    Fixed.enqueueList (Fixed.new Nat 4) [7, 21, 196, 233]
      = some ([none, none, none, none],
          ⟨[some 7, some 21, some 196, some 233], 0, 4⟩) ∧
    Fixed.len (⟨[some 7, some 21, some 196, some 233], 0, 4⟩ : Fixed Nat) = 4 ∧
    Fixed.enqueue (⟨[some 7, some 21, some 196, some 233], 0, 4⟩ : Fixed Nat) 5
      = some (some 5, ⟨[some 7, some 21, some 196, some 233], 0, 4⟩) ∧
    Fixed.dequeue (⟨[some 7, some 21, some 196, some 233], 0, 4⟩ : Fixed Nat)
      = some (some 7, ⟨[some 7, some 21, some 196, some 233], 1, 3⟩) ∧
    Fixed.len (⟨[some 7, some 21, some 196, some 233], 1, 3⟩ : Fixed Nat) = 3 ∧
    Fixed.bulk_enqueue (⟨[some 7, some 21, some 196, some 233], 1, 3⟩ : Fixed Nat) [9]
      = some (1, ⟨[some 9, some 21, some 196, some 233], 1, 4⟩) ∧
    Fixed.len (⟨[some 9, some 21, some 196, some 233], 1, 4⟩ : Fixed Nat) = 4 ∧
    Fixed.bulk_dequeue
        (⟨[some 9, some 21, some 196, some 233], 1, 4⟩ : Fixed Nat) [0, 0, 0, 0]
      = some (3, [21, 196, 233, 0], ⟨[some 9, some 21, some 196, some 233], 0, 1⟩) ∧
    Fixed.bulk_dequeue
        (⟨[some 9, some 21, some 196, some 233], 0, 1⟩ : Fixed Nat) [0, 0, 0, 0]
      = some (1, [9, 0, 0, 0], ⟨[some 9, some 21, some 196, some 233], 1, 0⟩) :=
  ⟨rfl, rfl, rfl, rfl, rfl, rfl, rfl, rfl, rfl⟩

/-- C5 counterexample: on the reachable capacity-2 state with `read = 1` and
`amount = 0` (reached by enqueue 99 then dequeue), `bulk_enqueue [10, 20]`
transfers only 1 item (the exposed writeable run is the single slot before the
physical end), while enqueueing 10 and 20 one at a time accepts both; the
drained sequences differ: [10] versus [10, 20]. -/
theorem C5_counterexample :
    (Fixed.enqueue (Fixed.new Nat 2) 99).bind (fun p => Fixed.dequeue p.2)
      = some (some 99, ⟨[some 99, none], 1, 0⟩) ∧
    Fixed.bulk_enqueue (⟨[some 99, none], 1, 0⟩ : Fixed Nat) [10, 20]
      = some (1, ⟨[some 99, some 10], 1, 1⟩) ∧
    Fixed.enqueueList (⟨[some 99, none], 1, 0⟩ : Fixed Nat) [10, 20]
      = some ([none, none], ⟨[some 20, some 10], 1, 2⟩) ∧
    Fixed.dequeueN (⟨[some 99, some 10], 1, 1⟩ : Fixed Nat) 1
      = some ([some 10], ⟨[some 99, some 10], 0, 0⟩) ∧
    Fixed.dequeueN (⟨[some 20, some 10], 1, 2⟩ : Fixed Nat) 2
      = some ([some 10, some 20], ⟨[some 20, some 10], 1, 0⟩) ∧
    ([some (10 : Nat)] : List (Option Nat)) ≠ [some 10, some 20] :=
  ⟨rfl, rfl, rfl, rfl, rfl, by decide⟩

/-- C5 (amended): `bulk_enqueue(buffer)` transfers `k = min(exposed-region
length, buffer length)` items (`k = 0` on a full queue), and its post-state is
exactly the state reached by enqueueing the first `k` buffer items one at a
time — so draining after either gives the same item sequence. Repeated
single-item enqueue of the whole buffer can however insert more than `k`
items, so the claim as stated (stopping only at the first rejection) fails. -/
theorem C5_bulk_matches_prefix_enqueues {T : Type} (q : Fixed T) (buf : List T)
    (hWF : Fixed.WF q) :
    ∃ k q2, q.bulk_enqueue buf = some (k, q2) ∧
      Fixed.enqueueList q (buf.take k) = some ((buf.take k).map (fun _ => none), q2) ∧
      (q.amount ≠ q.capacity → k = min (Fixed.freeLen q) buf.length) ∧
      (q.amount = q.capacity → k = 0) := by
  by_cases hf : q.amount = q.capacity
  · exact ⟨0, q, Fixed.bulk_enqueue_full hf buf, rfl, fun hnf => absurd hf hnf, fun _ => rfl⟩
  · refine ⟨min (Fixed.freeLen q) buf.length, _,
      Fixed.bulk_enqueue_not_full hWF hf buf, Fixed.bulk_enqueue_eq_enqueueList hWF hf buf,
      fun _ => rfl, fun hff => absurd hff hf⟩

/-- Witness for C5 (amended): empty capacity-2 queue, buffer [1, 2, 3]. -/
theorem C5_bulk_matches_prefix_enqueues_witness :
    ∃ k q2, Fixed.bulk_enqueue (Fixed.new Nat 2) [1, 2, 3] = some (k, q2) ∧
      Fixed.enqueueList (Fixed.new Nat 2) ([1, 2, 3].take k)
        = some (([1, 2, 3].take k).map (fun _ => none), q2) ∧
      ((Fixed.new Nat 2).amount ≠ (Fixed.new Nat 2).capacity →
        k = min (Fixed.freeLen (Fixed.new Nat 2)) [1, 2, 3].length) ∧
      ((Fixed.new Nat 2).amount = (Fixed.new Nat 2).capacity → k = 0) :=
  C5_bulk_matches_prefix_enqueues (Fixed.new Nat 2) [1, 2, 3] (by decide)

/-- C6: expose_slots contract — `expose_slots()` returns nothing exactly when
the queue is full; otherwise it returns the single contiguous region described
by the spec: the slots `[write_to, capacity)` when the data is contiguous and
`[write_to, read)` when it wraps, with `write_to = (read + amount) mod
capacity` (both variants). -/
theorem C6_expose_slots_contract {T : Type} {N : Nat} (q : Fixed T) (s : Static T N)
    (hq : Fixed.WF q) (hs : Static.WF s) :
    ((q.expose_slots = some none) ↔ q.amount = q.capacity) ∧
    (q.amount ≠ q.capacity → q.expose_slots = some (some (Fixed.specWriteRegion q))) ∧
    ((Static.expose_slots s = some none) ↔ s.amount = N) ∧
    (s.amount ≠ N → Static.expose_slots s = some (some (Fixed.specWriteRegion s.toFixed))) := by
  have hNcap : s.toFixed.capacity = N := hs.1
  refine ⟨⟨?_, Fixed.expose_slots_full⟩, ?_, ⟨?_, ?_⟩, ?_⟩
  · intro hex
    by_contra hnf
    rw [Fixed.expose_slots_not_full hq hnf] at hex
    exact Option.noConfusion (Option.some.inj hex)
  · intro hnf
    rw [Fixed.expose_slots_not_full hq hnf, Fixed.specWriteRegion_eq hq hnf]
  · intro hex
    by_contra hnf
    have hnf2 : s.toFixed.amount ≠ s.toFixed.capacity := by
      rw [Static.proj_amount, hNcap]
      exact hnf
    rw [Static.expose_slots_toFixed hs.1, Fixed.expose_slots_not_full hs.2 hnf2] at hex
    exact Option.noConfusion (Option.some.inj hex)
  · intro hf
    rw [Static.expose_slots_toFixed hs.1]
    exact Fixed.expose_slots_full (by rw [Static.proj_amount, hNcap]; exact hf)
  · intro hnf
    have hnf2 : s.toFixed.amount ≠ s.toFixed.capacity := by
      rw [Static.proj_amount, hNcap]
      exact hnf
    rw [Static.expose_slots_toFixed hs.1, Fixed.expose_slots_not_full hs.2 hnf2,
      Fixed.specWriteRegion_eq hs.2 hnf2]

/-- Witness for C6: a wrapped one-item queue of capacity 2 (read = 1), on both
variants. -/
theorem C6_expose_slots_contract_witness :
    ((Fixed.expose_slots (⟨[none, some 3], 1, 1⟩ : Fixed Nat) = some none)
      ↔ (⟨[none, some 3], 1, 1⟩ : Fixed Nat).amount
          = (⟨[none, some 3], 1, 1⟩ : Fixed Nat).capacity) ∧
    ((⟨[none, some 3], 1, 1⟩ : Fixed Nat).amount
        ≠ (⟨[none, some 3], 1, 1⟩ : Fixed Nat).capacity →
      Fixed.expose_slots (⟨[none, some 3], 1, 1⟩ : Fixed Nat)
        = some (some (Fixed.specWriteRegion (⟨[none, some 3], 1, 1⟩ : Fixed Nat)))) ∧
    ((Static.expose_slots (⟨[none, some 3], 1, 1⟩ : Static Nat 2) = some none)
      ↔ (⟨[none, some 3], 1, 1⟩ : Static Nat 2).amount = 2) ∧
    ((⟨[none, some 3], 1, 1⟩ : Static Nat 2).amount ≠ 2 →
      Static.expose_slots (⟨[none, some 3], 1, 1⟩ : Static Nat 2)
        = some (some (Fixed.specWriteRegion
            (Static.toFixed (⟨[none, some 3], 1, 1⟩ : Static Nat 2))))) :=
  C6_expose_slots_contract (⟨[none, some 3], 1, 1⟩ : Fixed Nat)
    (⟨[none, some 3], 1, 1⟩ : Static Nat 2) (by decide) (by decide)

/-- C7: capacity bound invariant — for every script of operations (single-item,
expose/confirm with each confirmation staying within the most recently exposed
region and immediately following its expose, and the bulk helpers) run from a
fresh queue of capacity `c`, whenever the run is defined the resulting state
satisfies `0 ≤ len() ≤ capacity`; `len() == capacity` holds exactly when
`expose_slots` signals full, and `len() == 0` exactly when the queue
`is_empty`. Since `ops` ranges over all scripts, every observation point of a
longer script is covered by its prefix. -/
theorem C7_capacity_bound {T : Type} (c : Nat) (ops : List (QOp T))
    (tr : List (QObs T)) (q2 : Fixed T) (le2 : LastExp)
    (h : Fixed.runF (Fixed.new T c) none ops = some (tr, q2, le2)) :
    0 ≤ q2.len ∧ q2.len ≤ q2.capacity ∧ q2.capacity = c ∧
    ((q2.len = q2.capacity) ↔ q2.expose_slots = some none) ∧
    ((q2.is_empty = true) ↔ q2.len = 0) := by
  have hInv := Fixed.runF_preserves ops (Fixed.new T c) none tr q2 le2
    (Fixed.InvF_none_of_WF (Fixed.WF_new c)) h
  have hWF : Fixed.WF q2 := hInv.1
  have hcap : q2.capacity = c := by
    have hl := Fixed.length_runF ops (Fixed.new T c) none (tr, q2, le2) h
    rw [show (tr, q2, le2).2.1 = q2 from rfl] at hl
    rw [Fixed.capacity, hl]
    simp [Fixed.new]
  refine ⟨Nat.zero_le _, hWF.1, hcap, ⟨Fixed.expose_slots_full, ?_⟩, ?_⟩
  · intro hex
    by_contra hnf
    rw [Fixed.expose_slots_not_full hWF hnf] at hex
    exact Option.noConfusion (Option.some.inj hex)
  · simp [Fixed.is_empty]

/-- Witness for C7: capacity 2, script [enqueue 5, dequeue, len]. -/
theorem C7_capacity_bound_witness :
    0 ≤ (⟨[some 5, none], 1, 0⟩ : Fixed Nat).len ∧
    (⟨[some 5, none], 1, 0⟩ : Fixed Nat).len
      ≤ (⟨[some 5, none], 1, 0⟩ : Fixed Nat).capacity ∧
    (⟨[some 5, none], 1, 0⟩ : Fixed Nat).capacity = 2 ∧
    (((⟨[some 5, none], 1, 0⟩ : Fixed Nat).len
        = (⟨[some 5, none], 1, 0⟩ : Fixed Nat).capacity)
      ↔ Fixed.expose_slots (⟨[some 5, none], 1, 0⟩ : Fixed Nat) = some none) ∧
    (((⟨[some 5, none], 1, 0⟩ : Fixed Nat).is_empty = true)
      ↔ (⟨[some 5, none], 1, 0⟩ : Fixed Nat).len = 0) :=
  C7_capacity_bound 2 [QOp.enq 5, QOp.deq, QOp.len]
    [QObs.ret none, QObs.ret (some 5), QObs.count 0] ⟨[some 5, none], 1, 0⟩ none rfl

/-- C8: variant equivalence — for every capacity `N` and every script of queue
operations, the `Static` queue with compile-time capacity `N` produces exactly
the same observation trace as the heap-backed `Fixed` queue created with
capacity `N`, and the resulting states agree field by field; in particular
every `len`, `enqueue`/`dequeue` return value, exposed-region content and
length, and bulk transfer count coincide at every step (prefix scripts cover
every intermediate step). -/
theorem C8_variant_equivalence {T : Type} (N : Nat) (ops : List (QOp T)) :
    Static.runS (Static.new T N) none ops
      = (Fixed.runF (Fixed.new T N) none ops).map
          (fun p => (p.1, Static.ofFixed N p.2.1, p.2.2)) :=
  Static.runS_toFixed ops (Static.new T N) none (by simp [Static.new])

/-- C9: non-empty exposed regions — on a queue with positive capacity, whenever
`expose_slots()` returns a region its length is at least 1 and equals
`capacity - write_to` in the contiguous case and `read - write_to` in the
wrapped case; whenever `expose_items()` returns a region its length is at
least 1. -/
theorem C9_exposed_regions_nonempty {T : Type} (q : Fixed T)
    (hq : Fixed.WF q) (hcap : 0 < q.capacity) :
    (∀ r, q.expose_slots = some (some r) → 0 < r.length ∧
      r.length = (if q.read + q.amount < q.capacity
        then q.capacity - ((q.read + q.amount) % q.capacity)
        else q.read - ((q.read + q.amount) % q.capacity))) ∧
    (∀ r, q.expose_items = some (some r) → 0 < r.length) := by
  constructor
  · intro r hr
    by_cases hnf : q.amount = q.capacity
    · rw [Fixed.expose_slots_full hnf] at hr
      exact Option.noConfusion (Option.some.inj hr)
    · rw [Fixed.expose_slots_not_full hq hnf] at hr
      have hrr := Option.some.inj (Option.some.inj hr)
      rw [← hrr, List.length_map, List.length_range]
      refine ⟨Fixed.freeLen_pos hq hnf, ?_⟩
      rw [Fixed.freeLen]
      by_cases hc : q.read + q.amount < q.capacity
      · rw [if_pos hc, if_pos hc, Nat.mod_eq_of_lt hc]
      · have h1 := hq.1
        have h2 := hq.2.1
        have hw : (q.read + q.amount) % q.capacity = q.read + q.amount - q.capacity := by
          rw [Nat.mod_eq_sub_mod (by omega), Nat.mod_eq_of_lt (by omega)]
        rw [if_neg hc, if_neg hc, hw]
        omega
  · intro r hr
    by_cases hne : q.amount = 0
    · rw [Fixed.expose_items_empty hne] at hr
      exact Option.noConfusion (Option.some.inj hr)
    · obtain ⟨l2, hexp, -, hlen⟩ := Fixed.expose_items_not_empty hq hne
      rw [hexp] at hr
      have := Option.some.inj (Option.some.inj hr)
      rw [← this, hlen]
      exact Fixed.readLen_pos hq hne

/-- Witness for C9: capacity-2 queue holding one item. -/
theorem C9_exposed_regions_nonempty_witness :
    (∀ r, Fixed.expose_slots (⟨[some 3, none], 0, 1⟩ : Fixed Nat) = some (some r) →
      0 < r.length ∧
      r.length = (if (⟨[some 3, none], 0, 1⟩ : Fixed Nat).read
            + (⟨[some 3, none], 0, 1⟩ : Fixed Nat).amount
            < (⟨[some 3, none], 0, 1⟩ : Fixed Nat).capacity
        then (⟨[some 3, none], 0, 1⟩ : Fixed Nat).capacity
          - (((⟨[some 3, none], 0, 1⟩ : Fixed Nat).read
              + (⟨[some 3, none], 0, 1⟩ : Fixed Nat).amount)
            % (⟨[some 3, none], 0, 1⟩ : Fixed Nat).capacity)
        else (⟨[some 3, none], 0, 1⟩ : Fixed Nat).read
          - (((⟨[some 3, none], 0, 1⟩ : Fixed Nat).read
              + (⟨[some 3, none], 0, 1⟩ : Fixed Nat).amount)
            % (⟨[some 3, none], 0, 1⟩ : Fixed Nat).capacity))) ∧
    (∀ r, Fixed.expose_items (⟨[some 3, none], 0, 1⟩ : Fixed Nat) = some (some r) →
      0 < r.length) :=
  C9_exposed_regions_nonempty (⟨[some 3, none], 0, 1⟩ : Fixed Nat) (by decide) (by decide)

/-- C10 counterexample: not every public operation is defined on a capacity-0
queue — `consider_dequeued(0)` computes `(read + 0) % 0`, a division by zero
(a Rust panic, modelled as `none`), even though its caller obligation
(marking no more items dequeued than were exposed) is vacuously satisfied. -/
theorem C10_counterexample :
    Fixed.consider_dequeued (Fixed.new Nat 0) 0 = none := rfl

/-- C10 (amended): a capacity-0 queue (heap-backed with capacity 0, or `Static`
with `N = 0`) is simultaneously full and empty, and the operations `len`,
`enqueue`, `dequeue`, `expose_slots`, `expose_items` and `consider_enqueued(0)`
are all still defined: enqueue always returns the offered item, dequeue,
expose_slots and expose_items always return nothing, and `len()` stays 0; the
modulo-by-capacity in `write_to` is a division by zero (`write_to = none`) but
is never reached by those operations. `consider_dequeued`, however, divides by
zero even for amount 0 (see the counterexample). -/
theorem C10_capacity_zero {T : Type} (q : Fixed T) (s : Static T 0) (i j : T)
    (hq : Fixed.WF q) (hcap : q.capacity = 0) (hs : Static.WF s) :
    q.len = 0 ∧ q.enqueue i = some (some i, q) ∧ q.dequeue = some (none, q) ∧
    q.expose_slots = some none ∧ q.expose_items = some none ∧
    q.write_to = none ∧ q.consider_enqueued 0 = q ∧ q.consider_dequeued 0 = none ∧
    Static.len s = 0 ∧ Static.enqueue s j = some (some j, s) ∧
    Static.dequeue s = some (none, s) ∧ Static.expose_slots s = some none ∧
    Static.expose_items s = some none ∧ Static.write_to s = none ∧
    Static.consider_enqueued s 0 = s ∧ Static.consider_dequeued s 0 = none := by
  have h0 : q.amount = 0 := by have := hq.1; omega
  have hs0 : s.amount = 0 := by
    have h1 := hs.2.1
    have h2 : s.toFixed.capacity = 0 := hs.1
    have h3 : s.toFixed.amount = s.amount := rfl
    omega
  refine ⟨?_, ?_, Fixed.dequeue_empty h0, ?_, Fixed.expose_items_empty h0, ?_, ?_, ?_,
    ?_, ?_, ?_, ?_, ?_, ?_, ?_, ?_⟩
  · rw [Fixed.len, h0]
  · exact Fixed.enqueue_full (by rw [h0, hcap]) i
  · exact Fixed.expose_slots_full (by rw [h0, hcap])
  · rw [Fixed.write_to, hcap, rustMod, if_pos rfl]
  · show (⟨q.data, q.read, q.amount + 0⟩ : Fixed T) = q
    rfl
  · rw [Fixed.consider_dequeued, hcap, rustMod, if_pos rfl]
    rfl
  · rw [Static.len, hs0]
  · rw [Static.enqueue_toFixed hs.1 j,
      Fixed.enqueue_full (show s.toFixed.amount = s.toFixed.capacity from by
        rw [Static.proj_amount, Static.proj_cap hs.1, hs0]) j]
    rfl
  · rw [Static.dequeue_toFixed hs.1, Fixed.dequeue_empty hs0]
    rfl
  · rw [Static.expose_slots_toFixed hs.1]
    exact Fixed.expose_slots_full (by
      rw [Static.proj_amount, Static.proj_cap hs.1, hs0])
  · rw [Static.expose_items_toFixed hs.1]
    exact Fixed.expose_items_empty hs0
  · rw [Static.write_to, rustMod, if_pos rfl]
  · show (⟨s.data, s.read, s.amount + 0⟩ : Static T 0) = s
    rfl
  · rw [Static.consider_dequeued, rustMod, if_pos rfl]
    rfl

/-- Witness for C10 (amended): the freshly constructed capacity-0 queues. -/
theorem C10_capacity_zero_witness :
    (Fixed.new Nat 0).len = 0 ∧
    (Fixed.new Nat 0).enqueue 3 = some (some 3, Fixed.new Nat 0) ∧
    (Fixed.new Nat 0).dequeue = some (none, Fixed.new Nat 0) ∧
    (Fixed.new Nat 0).expose_slots = some none ∧
    (Fixed.new Nat 0).expose_items = some none ∧
    (Fixed.new Nat 0).write_to = none ∧
    (Fixed.new Nat 0).consider_enqueued 0 = Fixed.new Nat 0 ∧
    (Fixed.new Nat 0).consider_dequeued 0 = none ∧
    Static.len (Static.new Nat 0) = 0 ∧
    Static.enqueue (Static.new Nat 0) 4 = some (some 4, Static.new Nat 0) ∧
    Static.dequeue (Static.new Nat 0) = some (none, Static.new Nat 0) ∧
    Static.expose_slots (Static.new Nat 0) = some none ∧
    Static.expose_items (Static.new Nat 0) = some none ∧
    Static.write_to (Static.new Nat 0) = none ∧
    Static.consider_enqueued (Static.new Nat 0) 0 = Static.new Nat 0 ∧
    Static.consider_dequeued (Static.new Nat 0) 0 = none :=
  C10_capacity_zero (Fixed.new Nat 0) (Static.new Nat 0) 3 4 (by decide) rfl (by decide)
